import Mathlib

/-!
Shallow embedding of the changelog engine of `dwsmorg/changelog_mcp`
(TypeScript) together with proofs about the claims of its specification.

Strings are modelled as Lean `String` (a wrapper of `List Char`); the
character-level helpers below mirror the JavaScript string and regex
primitives the source relies on.  JavaScript numbers are modelled exactly:
every value the `Number` string coercion can produce is either an infinity
or an exact scaled decimal integer `m * 10 ^ e`, which the model keeps
unrounded; theorems that assert numeric values therefore carry `< 2 ^ 53`
bounds, the range on which IEEE-754 doubles coincide with the exact
arithmetic.
-/

namespace ChangelogMcp

/-- Decidable test for the characters of the JavaScript regex class `\s`,
which is also the set stripped by `String.prototype.trim` and
`String.prototype.trimEnd`: ASCII whitespace, NBSP, the Unicode space
separators, line and paragraph separators, and the BOM. -/
def isJsWs (c : Char) : Bool :=
  c.toNat = 32 || c.toNat = 9 || c.toNat = 10 || c.toNat = 13 ||
  c.toNat = 11 || c.toNat = 12 || c.toNat = 0xa0 || c.toNat = 0x1680 ||
  (0x2000 ≤ c.toNat && c.toNat ≤ 0x200a) || c.toNat = 0x2028 ||
  c.toNat = 0x2029 || c.toNat = 0x202f || c.toNat = 0x205f ||
  c.toNat = 0x3000 || c.toNat = 0xfeff

/-- Decidable test for the characters of the JavaScript regex class `\d`,
exactly the ASCII digits `0`-`9`. -/
def isDigitCh (c : Char) : Bool :=
  48 ≤ c.toNat && c.toNat ≤ 57

/-- Model of `String.prototype.trimEnd` on the character list. -/
def jsTrimEnd (cs : List Char) : List Char :=
  (cs.reverse.dropWhile isJsWs).reverse

/-- Model of `String.prototype.trim` on the character list. -/
def jsTrim (cs : List Char) : List Char :=
  jsTrimEnd (cs.dropWhile isJsWs)

/-- Model of `String.prototype.split(sep)` for a one-character separator:
like JavaScript, splitting the empty string yields one empty component and
separators at the ends yield empty components. -/
def chSplit (sep : Char) : List Char → List (List Char)
  | [] => [[]]
  | c :: rest =>
    if c = sep then [] :: chSplit sep rest
    else
      match chSplit sep rest with
      | [] => [[c]]
      | g :: gs => (c :: g) :: gs

/-- The ASCII digit character of a value below ten. -/
def digitChar (n : Nat) : Char :=
  match n with
  | 0 => '0' | 1 => '1' | 2 => '2' | 3 => '3' | 4 => '4'
  | 5 => '5' | 6 => '6' | 7 => '7' | 8 => '8' | _ => '9'

/-- Fuel-driven core of `natToDigits`; the fuel only forces structural
recursion and is always sufficient at the call site. -/
def natToDigitsAux : Nat → Nat → List Char
  | 0, _ => []
  | fuel + 1, n =>
    if n < 10 then [digitChar n]
    else natToDigitsAux fuel (n / 10) ++ [digitChar (n % 10)]

/-- Decimal digit string of a natural number, mirroring how JavaScript
renders a non-negative safe integer inside a template literal. -/
def natToDigits (n : Nat) : List Char :=
  natToDigitsAux (n + 1) n

/-- Numeric value of a digit string, most significant digit first. -/
def digitsToNat (ds : List Char) : Nat :=
  ds.foldl (fun acc c => acc * 10 + (c.toNat - 48)) 0

/-- Value of a non-empty all-digit character list, `none` otherwise. -/
def jsDigits? (ds : List Char) : Option Nat :=
  if ds.isEmpty then none
  else if ds.all isDigitCh then some (digitsToNat ds) else none

/-- Decimal rendering of an integer, mirroring how JavaScript renders a
safe integer inside a template literal. -/
def intToChars (i : Int) : List Char :=
  if i < 0 then '-' :: natToDigits i.natAbs else natToDigits i.toNat

/-- Joins three version components with the two literal dots. -/
def verJoin (a b c : List Char) : List Char :=
  a ++ '.' :: b ++ '.' :: c

/-- The version string `a.b.c` of three natural components. -/
def mkVersion (a b c : Nat) : String :=
  String.mk (verJoin (natToDigits a) (natToDigits b) (natToDigits c))

/-- Value domain of the JavaScript `Number` string coercion.  Every value
the coercion can produce from a string is `m * 10 ^ e` for integers `m`
and `e` (decimal or radix literals, optionally scaled by an exponent) or
an infinity; `NaN` is the `none` of the surrounding `Option`.  The model
keeps the exact unrounded value; the engine would round it to the nearest
IEEE-754 double, which coincides with the exact value on the ranges every
theorem below states values on. -/
inductive JsNum
  | val (m : Int) (e : Int)
  | inf (neg : Bool)
deriving DecidableEq, Repr

/-- Value of a hexadecimal digit character, `none` otherwise. -/
def hexDigitVal? (c : Char) : Option Nat :=
  if 48 ≤ c.toNat ∧ c.toNat ≤ 57 then some (c.toNat - 48)
  else if 97 ≤ c.toNat ∧ c.toNat ≤ 102 then some (c.toNat - 87)
  else if 65 ≤ c.toNat ∧ c.toNat ≤ 70 then some (c.toNat - 55)
  else none

/-- Value of a non-empty digit run in the given radix (2, 8 or 16), `none`
on an empty run or a digit outside the radix, as for the `0b`/`0o`/`0x`
literal bodies of the `Number` coercion. -/
def radixDigits? (radix : Nat) (ds : List Char) : Option Nat :=
  if ds = [] then none
  else ds.foldl (fun acc c => acc.bind (fun a =>
    (hexDigitVal? c).bind (fun v =>
      if v < radix then some (a * radix + v) else none))) (some 0)

/-- Signed decimal digit run, the `SignedInteger` tail of an exponent
part: an optional sign followed by at least one digit. -/
def signedDigits? (t : List Char) : Option Int :=
  if t.headD ' ' = '-' then (jsDigits? t.tail).map (fun n => -(n : Int))
  else if t.headD ' ' = '+' then (jsDigits? t.tail).map (fun n => (n : Int))
  else (jsDigits? t).map (fun n => (n : Int))

/-- Scale given by the optional exponent tail of a decimal literal: the
empty tail scales by `10 ^ 0`, an `e`/`E` followed by a signed digit run
scales by that power, and anything else makes the literal `NaN`. -/
def expScale? (t : List Char) : Option Int :=
  if t = [] then some 0
  else if t.headD ' ' = 'e' ∨ t.headD ' ' = 'E' then signedDigits? t.tail
  else none

/-- Unsigned decimal literal of the `Number` coercion
(`StrUnsignedDecimalLiteral` without the `Infinity` form): integer digits
with an optional dot-separated fraction, or a leading dot with fraction
digits, each with an optional exponent; at least one digit must be
present and nothing may follow the exponent.  The exact value
`(ip.fp) * 10 ^ ex` is returned as the scaled integer
`(ip * 10 ^ |fp| + fp) * 10 ^ (ex - |fp|)`. -/
def decValue? (t : List Char) : Option JsNum :=
  if (t.dropWhile isDigitCh).headD ' ' = '.' then
    if t.takeWhile isDigitCh = [] ∧
        (t.dropWhile isDigitCh).tail.takeWhile isDigitCh = [] then none
    else
      (expScale? ((t.dropWhile isDigitCh).tail.dropWhile isDigitCh)).map (fun ex =>
        JsNum.val
          ((digitsToNat (t.takeWhile isDigitCh) *
              10 ^ ((t.dropWhile isDigitCh).tail.takeWhile isDigitCh).length +
            digitsToNat ((t.dropWhile isDigitCh).tail.takeWhile isDigitCh) : Nat))
          (ex - ((t.dropWhile isDigitCh).tail.takeWhile isDigitCh).length))
  else
    if t.takeWhile isDigitCh = [] then none
    else (expScale? (t.dropWhile isDigitCh)).map (fun ex =>
      JsNum.val ((digitsToNat (t.takeWhile isDigitCh) : Nat)) ex)

/-- Negation of a coerced number, for the leading minus sign. -/
def jsNumNeg : JsNum → JsNum
  | JsNum.val m e => JsNum.val (-m) e
  | JsNum.inf b => JsNum.inf (!b)

/-- Model of the JavaScript `Number` string coercion (ECMA-262
`StringToNumber`): surrounding whitespace (the `\s` class) is trimmed,
the empty remainder coerces to `0`, an unsigned `0x`/`0o`/`0b` literal is
read in its radix, and otherwise an optional sign applies to `Infinity`
or to a decimal literal with optional fraction and exponent.  Everything
else is `NaN`, modelled as `none`. -/
def strToNumber (s : String) : Option JsNum :=
  if jsTrim s.data = [] then some (JsNum.val 0 0)
  else if (jsTrim s.data).take 2 = ['0', 'x'] ∨ (jsTrim s.data).take 2 = ['0', 'X'] then
    (radixDigits? 16 ((jsTrim s.data).drop 2)).map (fun v => JsNum.val (v : Int) 0)
  else if (jsTrim s.data).take 2 = ['0', 'o'] ∨ (jsTrim s.data).take 2 = ['0', 'O'] then
    (radixDigits? 8 ((jsTrim s.data).drop 2)).map (fun v => JsNum.val (v : Int) 0)
  else if (jsTrim s.data).take 2 = ['0', 'b'] ∨ (jsTrim s.data).take 2 = ['0', 'B'] then
    (radixDigits? 2 ((jsTrim s.data).drop 2)).map (fun v => JsNum.val (v : Int) 0)
  else if (jsTrim s.data).headD ' ' = '-' then
    if (jsTrim s.data).tail = ("Infinity" : String).data then some (JsNum.inf true)
    else (decValue? ((jsTrim s.data).tail)).map jsNumNeg
  else if (jsTrim s.data).headD ' ' = '+' then
    if (jsTrim s.data).tail = ("Infinity" : String).data then some (JsNum.inf false)
    else decValue? ((jsTrim s.data).tail)
  else
    if jsTrim s.data = ("Infinity" : String).data then some (JsNum.inf false)
    else decValue? (jsTrim s.data)

/-- Adding one to a coerced number, as in `patch + 1` and `major + 1`:
exact on the scaled integers, absorbed by the infinities. -/
def jsAdd1 : JsNum → JsNum
  | JsNum.inf b => JsNum.inf b
  | JsNum.val m e =>
    if 0 ≤ e then JsNum.val (m * ((10 ^ e.toNat : Nat) : Int) + 1) 0
    else JsNum.val (m + ((10 ^ (-e).toNat : Nat) : Int)) e

/-- Pads a digit run with leading zeros up to the scale width. -/
def padLeftZeros (k : Nat) (ds : List Char) : List Char :=
  List.replicate (k - ds.length) '0' ++ ds

/-- Drops the trailing zero digits of a fraction. -/
def dropTrailingZeros (ds : List Char) : List Char :=
  (ds.reverse.dropWhile (fun c => c = '0')).reverse

/-- Rendering of a coerced number inside a template literal.  Integer
values render as their decimal digits and the infinities by name, exactly
as the engine does for magnitudes below `10 ^ 21`; fractional values
render as sign, integer part and the exact fraction digits, which matches
the engine wherever the exact value survives double rounding.  The
engine additionally switches to exponential notation at magnitude
`10 ^ 21` and below `10 ^ (-7)`; no theorem below exercises rendering
outside the exact integer range. -/
def jsNumToChars : JsNum → List Char
  | JsNum.inf true => ("-Infinity" : String).data
  | JsNum.inf false => ("Infinity" : String).data
  | JsNum.val m e =>
    if 0 ≤ e then intToChars (m * ((10 ^ e.toNat : Nat) : Int))
    else if m % ((10 ^ (-e).toNat : Nat) : Int) = 0 then
      intToChars (m / ((10 ^ (-e).toNat : Nat) : Int))
    else
      (if m < 0 then ['-'] else []) ++
        natToDigits (m.natAbs / 10 ^ (-e).toNat) ++
        '.' :: dropTrailingZeros
          (padLeftZeros ((-e).toNat) (natToDigits (m.natAbs % 10 ^ (-e).toNat)))

/-- Versioning mode of `VersioningConfig` (src/config/types.ts): the Zod
enum `semver | patch-only`. -/
inductive VMode
  | semver
  | patchOnly
deriving DecidableEq, Repr

/-- Model of `VersioningConfig` (src/config/types.ts).  The nullable
integers `fixedMajor` and `fixedMinor` become `Option Int` (`null` is
`none`); the version prefix field plays no role in the claims and is
omitted. -/
structure VersioningConfig where
  mode : VMode
  fixedMajor : Option Int
  fixedMinor : Option Int
deriving DecidableEq, Repr

/-- The bump kind argument of `bumpVersion`: `"major" | "minor" | "patch"`. -/
inductive BumpKind
  | major
  | minor
  | patch
deriving DecidableEq, Repr

/-- Error raised by `bumpVersion` (src/parser/version.ts throws an `Error`
whose message names the offending version string; the structured
constructor keeps that string). -/
inductive VersionError
  | invalidVersion (current : String)
deriving DecidableEq, Repr

/-- The standard semver switch of `bumpVersion` (src/parser/version.ts,
lines 71-78): the template literals `X.0.0`, `X.Y.0`, `X.Y.Z`. -/
def bumpStd (major minor patch : JsNum) (bump : BumpKind) : Except VersionError String :=
  match bump with
  | BumpKind.major =>
    Except.ok (String.mk (verJoin (jsNumToChars (jsAdd1 major)) ['0'] ['0']))
  | BumpKind.minor =>
    Except.ok (String.mk (verJoin (jsNumToChars major) (jsNumToChars (jsAdd1 minor)) ['0']))
  | BumpKind.patch =>
    Except.ok (String.mk (verJoin (jsNumToChars major) (jsNumToChars minor)
      (jsNumToChars (jsAdd1 patch))))

/-- The policy part of `bumpVersion` (src/parser/version.ts, lines 62-78):
in patch-only mode the major and minor are overridden by the fixed integer
config values, falling back to the current ones, and the patch advances;
otherwise the standard switch runs. -/
def bumpCore (major minor patch : JsNum) (bump : BumpKind)
    (versioning : Option VersioningConfig) : Except VersionError String :=
  if (versioning.map VersioningConfig.mode).getD VMode.semver = VMode.patchOnly then
    Except.ok (String.mk (verJoin
      (jsNumToChars (((versioning.bind VersioningConfig.fixedMajor).map
        (fun i => JsNum.val i 0)).getD major))
      (jsNumToChars (((versioning.bind VersioningConfig.fixedMinor).map
        (fun i => JsNum.val i 0)).getD minor))
      (jsNumToChars (jsAdd1 patch))))
  else bumpStd major minor patch bump

/-- Model of `bumpVersion` (src/parser/version.ts, lines 47-79): split the
current version at `.`, coerce each part with `Number`, throw unless that
yields exactly three non-`NaN` parts, then destructure the three parts and
dispatch on the policy and bump kind. -/
def bumpVersion (current : String) (bump : BumpKind)
    (versioning : Option VersioningConfig) : Except VersionError String :=
  let parts := (chSplit '.' current.data).map (fun p => strToNumber (String.mk p))
  if parts.length = 3 ∧ ∀ x ∈ parts, x ≠ none then
    bumpCore ((parts.getD 0 none).getD (JsNum.val 0 0))
      ((parts.getD 1 none).getD (JsNum.val 0 0))
      ((parts.getD 2 none).getD (JsNum.val 0 0)) bump versioning
  else Except.error (VersionError.invalidVersion current)

/-! Entry parser (src/parser/changelog.ts).  The global multiline regex
`VERSION_BLOCK_PATTERN` anchors every alternative at a line start, so the
scan below attempts a match at each line-start suffix of the content; the
`lastIndex` bookkeeping of `exec` with the `g` flag is modelled by the
`allowed` bound of `collectHeadings`.  The `\s*` parts may cross newlines,
hence heading matching works on the whole suffix, not on a single line. -/

/-- Decidable test for the JavaScript line terminators, the characters the
regex metacharacter `.` refuses to match. -/
def isLineTerm (c : Char) : Bool :=
  c = '\n' || c = '\r' || c.toNat = 0x2028 || c.toNat = 0x2029

/-- Suffixes of the content starting right after each newline, in document
order: the positions at which the multiline anchor `^` can match besides
the start of the content. -/
def nlSuffixes : List Char → List (List Char)
  | [] => []
  | c :: rest => if c = '\n' then rest :: nlSuffixes rest else nlSuffixes rest

/-- All line-start suffixes of the content, in document order. -/
def lineSuffixes (cs : List Char) : List (List Char) :=
  cs :: nlSuffixes cs

/-- Consumes one expected literal character, the building block of the
regex matchers. -/
def headIs (c : Char) (cs : List Char) : Option (List Char) :=
  match cs with
  | d :: rest => if d = c then some rest else none
  | [] => none

/-- Greedy match of `\d+\.\d+\.\d+` at the front: returns the matched
characters and the remaining suffix.  Deterministic because a digit can
never continue past a literal dot. -/
def matchVer (cs : List Char) : Option (List Char × List Char) :=
  let d1 := cs.takeWhile isDigitCh
  if d1 = [] then none
  else (headIs '.' (cs.dropWhile isDigitCh)).bind (fun r2 =>
    let d2 := r2.takeWhile isDigitCh
    if d2 = [] then none
    else (headIs '.' (r2.dropWhile isDigitCh)).bind (fun r4 =>
      let d3 := r4.takeWhile isDigitCh
      if d3 = [] then none
      else some (d1 ++ '.' :: d2 ++ '.' :: d3, r4.dropWhile isDigitCh)))

/-- Match of exactly `n` digits at the front. -/
def matchNDigits : Nat → List Char → Option (List Char × List Char)
  | 0, cs => some ([], cs)
  | _ + 1, [] => none
  | n + 1, c :: cs =>
    if isDigitCh c then (matchNDigits n cs).map (fun pr => (c :: pr.1, pr.2))
    else none

/-- Match of the date part of the heading pattern: four digits, dash, two
digits, dash, two digits. -/
def matchDate (cs : List Char) : Option (List Char × List Char) :=
  (matchNDigits 4 cs).bind (fun y =>
  (headIs '-' y.2).bind (fun r2 =>
  (matchNDigits 2 r2).bind (fun mo =>
  (headIs '-' mo.2).bind (fun r4 =>
  (matchNDigits 2 r4).map (fun d => (y.1 ++ '-' :: mo.1 ++ '-' :: d.1, d.2))))))

/-- Greedy skip of `\s*` before a non-whitespace literal; deterministic
because the following literal is never a whitespace character. -/
def skipWs (cs : List Char) : List Char :=
  cs.dropWhile isJsWs

/-- First alternative of `VERSION_BLOCK_PATTERN`, the Keep a Changelog
heading `## [version] - date` with `\s*` around the dash.  Returns
captured version, captured date, and the suffix after the match. -/
def tryKac (cs : List Char) : Option (List Char × List Char × List Char) :=
  (headIs '#' cs).bind (fun r1 =>
  (headIs '#' r1).bind (fun r2 =>
  (headIs ' ' r2).bind (fun r3 =>
  (headIs '[' r3).bind (fun r4 =>
  (matchVer r4).bind (fun vr =>
  (headIs ']' vr.2).bind (fun r5 =>
  (headIs '-' (skipWs r5)).bind (fun r6 =>
  (matchDate (skipWs r6)).map (fun dr => (vr.1, dr.1, dr.2)))))))))

/-- Shared tail of the second and third alternatives: version, `\s*`, the
parenthesized date. -/
def tryVerParen (cs : List Char) : Option (List Char × List Char × List Char) :=
  (matchVer cs).bind (fun vr =>
  (headIs '(' (skipWs vr.2)).bind (fun r3 =>
  (matchDate r3).bind (fun dr =>
  (headIs ')' dr.2).map (fun r5 => (vr.1, dr.1, r5)))))

/-- One attempt of `VERSION_BLOCK_PATTERN` at a line-start suffix: the
three alternatives in order (Keep a Changelog `## [v] - date`,
Conventional `## v (date)`, DWSM `v... (date)`); the second and third
have disjoint leading tokens, so the dispatch below is their alternation. -/
def tryHeading (cs : List Char) : Option (List Char × List Char × List Char) :=
  match tryKac cs with
  | some h => some h
  | none =>
    match (headIs '#' cs).bind (fun r1 => (headIs '#' r1).bind (headIs ' ')) with
    | some r => tryVerParen r
    | none =>
      match headIs 'v' cs with
      | some r => tryVerParen r
      | none => none

/-- Scan of the global regex over the line-start suffixes.  A suffix still
inside the previous match (its length exceeds the length remaining after
that match) is skipped, exactly as `exec` resumes from `lastIndex`. -/
def collectHeadings : List (List Char) → Nat → List (List Char × List Char × List Char)
  | [], _ => []
  | s :: ss, allowed =>
    if s.length > allowed then collectHeadings ss allowed
    else
      match tryHeading s with
      | some (v, d, r) => (s, v, d) :: collectHeadings ss r.length
      | none => collectHeadings ss allowed

/-- A single parsed changelog version block (interface `ParsedEntry` of
src/parser/changelog.ts).  The insertion-ordered `Map` of categories is
modelled as an association list. -/
structure ParsedEntry where
  version : String
  date : String
  rawContent : String
  categories : List (String × List String)
deriving DecidableEq, Repr

/-- Match of the category heading line pattern `### (.+)$`: exactly the
hashes and space, then at least one character, none of them a line
terminator (without the `m` flag, `$` only matches at the very end of the
line string, so the whole rest is captured and must be terminator-free). -/
def catLineRest? (l : List Char) : Option (List Char) :=
  (headIs '#' l).bind (fun r1 =>
  (headIs '#' r1).bind (fun r2 =>
  (headIs '#' r2).bind (fun r3 =>
  (headIs ' ' r3).bind (fun rest =>
    if rest ≠ [] ∧ ∀ c ∈ rest, isLineTerm c = false then some rest else none))))

/-- Match of the list item line pattern `[-*] (.+)$`. -/
def itemLineRest? (l : List Char) : Option (List Char) :=
  match l with
  | [] => none
  | c1 :: r1 =>
    if c1 = '-' ∨ c1 = '*' then
      (headIs ' ' r1).bind (fun rest =>
        if rest ≠ [] ∧ ∀ c ∈ rest, isLineTerm c = false then some rest else none)
    else none

/-- Whether the association list already has the key, as `Map.has`. -/
def hasKey (m : List (List Char × List (List Char))) (k : List Char) : Bool :=
  m.any (fun p => p.1 = k)

/-- Appends an item to the list stored under the key, as
`Map.get(key).push(item)`; keys are unique by construction. -/
def pushItem (m : List (List Char × List (List Char))) (k item : List Char) :
    List (List Char × List (List Char)) :=
  m.map (fun p => if p.1 = k then (p.1, p.2 ++ [item]) else p)

/-- The line loop of `parseCategoriesFromBlock` (src/parser/changelog.ts,
lines 185-210): a category heading selects (and on first sight inserts)
a category, a top-level list item is appended to the selected category,
all other lines are ignored. -/
def catLoop : List (List Char) → Option (List Char) →
    List (List Char × List (List Char)) → List (List Char × List (List Char))
  | [], _, cats => cats
  | l :: ls, cur, cats =>
    match catLineRest? l with
    | some r =>
      let name := jsTrim r
      catLoop ls (some name) (if hasKey cats name then cats else cats ++ [(name, [])])
    | none =>
      match itemLineRest? l with
      | some r =>
        match cur with
        | some name => catLoop ls cur (pushItem cats name (jsTrim r))
        | none => catLoop ls cur cats
      | none => catLoop ls cur cats

/-- Model of `parseCategoriesFromBlock`: split the block at newlines and
run the line loop. -/
def parseCategoriesFromBlock (block : List Char) : List (String × List String) :=
  (catLoop (chSplit '\n' block) none []).map (fun p => (String.mk p.1, p.2.map String.mk))

/-- Builds one `ParsedEntry` from a raw block slice and the captured
version and date; the slice is trimmed at the end first, as in
`content.slice(start, end).trimEnd()`. -/
def mkEntry (block v d : List Char) : ParsedEntry :=
  let raw := jsTrimEnd block
  ParsedEntry.mk (String.mk v) (String.mk d) (String.mk raw) (parseCategoriesFromBlock raw)

/-- Cuts the content into blocks between consecutive heading starts (the
last block runs to the end of the content) and builds the entries. -/
def entriesFromHeadings : List (List Char × List Char × List Char) → List ParsedEntry
  | [] => []
  | [(s, v, d)] => [mkEntry s v d]
  | (s, v, d) :: (s2, v2, d2) :: rest =>
    mkEntry (s.take (s.length - s2.length)) v d ::
      entriesFromHeadings ((s2, v2, d2) :: rest)

/-- Model of `parseEntries` (src/parser/changelog.ts, lines 141-175) on the
character list. -/
def parseEntriesL (cs : List Char) : List ParsedEntry :=
  entriesFromHeadings (collectHeadings (lineSuffixes cs) cs.length)

/-- Model of `parseEntries` (src/parser/changelog.ts, lines 141-175). -/
def parseEntries (content : String) : List ParsedEntry :=
  parseEntriesL content.data

/-! Insertion planner (`findInsertPosition`, src/parser/changelog.ts,
lines 70-90). -/

/-- Line-local match of `## \[?\d+\.\d+\.\d+\]?` at a line start.  The
optional `[` is attempted first; if the version does not follow, the
fallback attempt without consuming `[` fails as well since `[` is not a
digit, so a direct conditional is equivalent to the backtracking.  The
optional closing bracket constrains nothing. -/
def insertHeadLine (l : List Char) : Bool :=
  match (headIs '#' l).bind (fun r1 => (headIs '#' r1).bind (headIs ' ')) with
  | none => false
  | some r =>
    match headIs '[' r with
    | some r2 => (matchVer r2).isSome
    | none => (matchVer r).isSome

/-- Whether the version-heading pattern of `findInsertPosition` matches at
this line-start suffix.  Every character the pattern can consume is a
non-newline character, so matching is confined to the line. -/
def matchInsertHeading (suf : List Char) : Bool :=
  insertHeadLine (suf.takeWhile (fun c => c != '\n'))

/-- Whether the suffix starts with the three characters of the level-two
heading marker, the negative lookahead test inside the header pattern. -/
def lookaheadH2 (cs : List Char) : Bool :=
  ((headIs '#' cs).bind (fun r1 => (headIs '#' r1).bind (headIs ' '))).isSome

/-- Fuel-driven core of `innerLoop`; the fuel only forces structural
recursion and is always sufficient at the call site. -/
def innerLoopAux : Nat → List Char → Option Nat
  | 0, _ => none
  | fuel + 1, cs =>
    match cs with
    | [] => none
    | c :: rest =>
      if c = '\n' then
        if lookaheadH2 rest then some 1
        else
          match innerLoopAux fuel (rest.dropWhile (fun x => !isLineTerm x)) with
          | some n => some (1 + (rest.takeWhile (fun x => !isLineTerm x)).length + n)
          | none => some 1
      else none

/-- The tail of the header pattern `(?:\n(?!## ).*)*\n` after the title
line: greedily iterate newline-plus-line groups while the lookahead
permits, then place the final newline, backtracking one group when the
iteration ran into a position with no newline.  Returns the number of
characters consumed, or `none` when even the final newline cannot match. -/
def innerLoop (cs : List Char) : Option Nat :=
  innerLoopAux (cs.length + 1) cs

/-- One attempt of the header pattern `^# .+\n(?:\n(?!## ).*)*\n` at a
line-start suffix, returning the length of the match: the two marker
characters, a non-empty terminator-free title, its newline, then the
inner loop. -/
def headerAt (suf : List Char) : Option Nat :=
  match (headIs '#' suf).bind (headIs ' ') with
  | none => none
  | some r =>
    let title := r.takeWhile (fun x => !isLineTerm x)
    if title = [] then none
    else
      match headIs '\n' (r.dropWhile (fun x => !isLineTerm x)) with
      | none => none
      | some tail2 => (innerLoop tail2).map (fun n => 2 + title.length + 1 + n)

/-- The two fallback branches of `findInsertPosition`: the end position of
the first header-pattern match, else the content length. -/
def findInsertFallback (cs : List Char) : Nat :=
  match (lineSuffixes cs).findSome?
      (fun suf => (headerAt suf).map (fun n => cs.length - suf.length + n)) with
  | some e => e
  | none => cs.length

/-- Model of `findInsertPosition` (src/parser/changelog.ts, lines 70-90):
the offset of the first line matching `## \[?\d+\.\d+\.\d+\]?`, else the
end of the first header-block match, else the content length. -/
def findInsertPosition (content : String) : Nat :=
  let cs := content.data
  match (lineSuffixes cs).findSome?
      (fun suf => if matchInsertHeading suf then some (cs.length - suf.length) else none) with
  | some i => i
  | none => findInsertFallback cs

/-! Backup rotation (`cleanupOldBackups`, src/utils/backup.ts). -/

/-- Model of `String.prototype.startsWith`. -/
def strStartsWith (s pre : String) : Bool :=
  pre.data.isPrefixOf s.data

/-- The snapshot files of a backup directory listing: the names starting
with `changelog_`. -/
def snapshotFiles (files : List String) : List String :=
  files.filter (fun f => strStartsWith f "changelog_")

/-- Lexicographic order on character lists by codepoint, the comparison
the default JavaScript sort applies to these filenames (it compares
UTF-16 code units; snapshot names are ASCII, where the two orders
agree). -/
def charListLe : List Char → List Char → Bool
  | [], _ => true
  | _ :: _, [] => false
  | a :: as, b :: bs =>
    if a.toNat < b.toNat then true
    else if b.toNat < a.toNat then false
    else charListLe as bs

/-- Lexicographic comparison of two strings. -/
def strLeB (a b : String) : Bool :=
  charListLe a.data b.data

instance : DecidableRel (fun a b : String => strLeB a b = true) :=
  fun _ _ => instDecidableEqBool _ _

/-- The snapshot files in lexicographic order, as sorted by the default
JavaScript `Array.prototype.sort`. -/
def sortedSnapshots (files : List String) : List String :=
  (snapshotFiles files).insertionSort (fun a b => strLeB a b = true)

/-- Model of `cleanupOldBackups` (src/utils/backup.ts, lines 99-124),
returning the list of deleted filenames in deletion order: filter the
directory listing to the `changelog_` snapshots, sort them, and delete
the leading excess beyond `maxFiles`. -/
def cleanupOldBackups (files : List String) (maxFiles : Nat) : List String :=
  let backupFiles := sortedSnapshots files
  if backupFiles.length ≤ maxFiles then []
  else backupFiles.take (backupFiles.length - maxFiles)

/-! Split manager (`splitChangelog`, src/utils/split.ts). -/

/-- A file-system write, the only mutation `splitChangelog` performs. -/
inductive FsOp where
  | write (path : String) (content : String)
deriving DecidableEq, Repr

/-- The read view of the file system: path to content. -/
def FileSys : Type := String → Option String

/-- Applies a list of writes in order to the read view. -/
def applyOps : List FsOp → FileSys → FileSys
  | [], fs => fs
  | FsOp.write p c :: rest, fs =>
    applyOps rest (fun q => if q = p then some c else fs q)

/-- Errors of `splitChangelog` (thrown `Error`s in src/utils/split.ts with
German messages; the constructors keep the dynamic data). -/
inductive SplitError
  | fileNotFound (path : String)
  | insufficientEntries (count : Nat)
deriving DecidableEq, Repr

/-- Result record of `splitChangelog` (interface `SplitResult`). -/
structure SplitResult where
  archivePath : String
  entriesMoved : Nat
  entriesKept : Nat
deriving DecidableEq, Repr

/-- Model of `String.prototype.indexOf` for the index search, `-1` when
absent. -/
def idxAux (needle : List Char) : Nat → List Char → Option Nat
  | i, hay =>
    if needle.isPrefixOf hay then some i
    else
      match hay with
      | [] => none
      | _ :: t => idxAux needle (i + 1) t

/-- First occurrence index of the needle in the haystack, `-1` if none. -/
def jsIndexOf (hay needle : List Char) : Int :=
  match idxAux needle 0 hay with
  | some i => (i : Int)
  | none => -1

/-- Model of `path.dirname` for a normalized path containing a slash
(enough for the absolute changelog paths the split manager receives);
a path with no slash maps to `.` as in node. -/
def pathDirname (p : String) : String :=
  if '/' ∈ p.data then
    String.mk ((p.data.reverse.dropWhile (fun c => c != '/')).tail).reverse
  else "."

/-- Model of `path.resolve(dir, name)` for a normalized directory. -/
def pathJoin (dir name : String) : String :=
  String.mk (dir.data ++ '/' :: name.data)

/-- The archive filename `CHANGELOG-archive-<YYYYMMDD>.md`. -/
def archiveFileNameOf (dateStr : String) : String :=
  String.mk ("CHANGELOG-archive-".data ++ dateStr.data ++ ".md".data)

/-- The split point `Math.ceil(n / 2)` of `splitChangelog`. -/
def splitIndexOf (n : Nat) : Nat :=
  (n + 1) / 2

/-- The archive document: a dated title line followed by the archived raw
blocks joined with a blank line and a final newline. -/
def archiveContentOf (dateStr : String) (moved : List ParsedEntry) : String :=
  String.mk ("# Changelog Archive (".data ++ dateStr.data ++ ")\n\n".data ++
    List.intercalate "\n\n".data (moved.map (fun e => e.rawContent.data)) ++ ['\n'])

/-- The rebuilt main document: the original leading header (the text before
the first occurrence of the first raw block, when that occurrence is at a
positive index), the kept raw blocks joined with a blank line, and the
HTML-comment pointer to the archive file. -/
def mainContentOf (content : String) (archiveFileName : String)
    (kept : List ParsedEntry) (firstRaw : String) : String :=
  let headerEndIndex := jsIndexOf content.data firstRaw.data
  let header := if 0 < headerEndIndex then content.data.take headerEndIndex.toNat else []
  String.mk (header ++
    List.intercalate "\n\n".data (kept.map (fun e => e.rawContent.data)) ++
    "\n\n".data ++ "<!-- Ältere Einträge: siehe ".data ++ archiveFileName.data ++
    " -->\n".data)

/-- The successful outcome of `splitChangelog` once at least two entries
exist: the result record and the two writes, archive first. -/
def splitBuild (changelogPath dateStr content : String) : SplitResult × List FsOp :=
  let entries := parseEntries content
  let splitIndex := splitIndexOf entries.length
  let keepEntries := entries.take splitIndex
  let archiveEntries := entries.drop splitIndex
  let archiveFileName := archiveFileNameOf dateStr
  let archivePath := pathJoin (pathDirname changelogPath) archiveFileName
  let archiveContent := archiveContentOf dateStr archiveEntries
  let mainContent := mainContentOf content archiveFileName keepEntries
    ((entries.headD (ParsedEntry.mk "" "" "" [])).rawContent)
  (SplitResult.mk archivePath archiveEntries.length keepEntries.length,
    [FsOp.write archivePath archiveContent, FsOp.write changelogPath mainContent])

/-- Model of `splitChangelog` (src/utils/split.ts, lines 33-99): read the
changelog, parse it, fail below two entries, otherwise keep the newest
`ceil(n/2)` entries and emit the archive write followed by the main-file
write.  The current date is a parameter since the clock is ambient
state; the function returns the result record together with the ordered
writes it issues. -/
def splitChangelog (changelogPath dateStr : String) (fs : FileSys) :
    Except SplitError (SplitResult × List FsOp) :=
  match fs changelogPath with
  | none => Except.error (SplitError.fileNotFound changelogPath)
  | some content =>
    if (parseEntries content).length < 2 then
      Except.error (SplitError.insufficientEntries (parseEntries content).length)
    else
      Except.ok (splitBuild changelogPath dateStr content)

/-! Dialect formatters (src/formats/keep-a-changelog.ts, conventional.ts,
dwsm.ts).  Each `formatEntry` builds a line array and joins it with
newlines; the final pushed empty string yields the trailing newline. -/

/-- The argument record of `formatEntry` (interface `FormatEntryParams` of
src/formats/base.ts); the optional `details` and `files` arrays are
modelled as possibly empty lists, which the sources treat identically. -/
structure FormatEntryParams where
  version : String
  date : String
  category : String
  description : String
  details : List String
  files : List String
deriving DecidableEq, Repr

/-- Model of `Array.prototype.join` with the newline separator. -/
def joinNlSep : List (List Char) → List Char
  | [] => []
  | [l] => l
  | l :: ls => l ++ '\n' :: joinNlSep ls

/-- The line array of `keepAChangelogFormatter.formatEntry`: bracketed
heading, blank, category header, dash item, two-space-indented dash
details, optional `Files` block with dash items, final blank. -/
def kacLines (p : FormatEntryParams) : List (List Char) :=
  ("## [".data ++ p.version.data ++ "] - ".data ++ p.date.data) :: [] ::
  ("### ".data ++ p.category.data) :: ("- ".data ++ p.description.data) ::
  (p.details.map (fun d => "  - ".data ++ d.data) ++
    (if p.files = [] then []
     else [] :: "### Files".data :: p.files.map (fun f => "- ".data ++ f.data)) ++
    [[]])

/-- The line array of `conventionalFormatter.formatEntry`: parenthesized
heading, blank, category header, blank, asterisk item, indented asterisk
details, optional `Files` block with bold asterisk items, final blank. -/
def convLines (p : FormatEntryParams) : List (List Char) :=
  ("## ".data ++ p.version.data ++ " (".data ++ p.date.data ++ ")".data) :: [] ::
  ("### ".data ++ p.category.data) :: [] :: ("* ".data ++ p.description.data) ::
  (p.details.map (fun d => "  * ".data ++ d.data) ++
    (if p.files = [] then []
     else [] :: "### Files".data :: p.files.map (fun f => "* **".data ++ f.data ++ "**".data)) ++
    [[]])

/-- The line array of the DWSM `formatEntry` template: `v`-prefixed
heading, blank, category header, dash item, indented dash details,
optional `Files` block with indented inline-code items, final blank. -/
def dwsmLines (p : FormatEntryParams) : List (List Char) :=
  ("v".data ++ p.version.data ++ " (".data ++ p.date.data ++ ")".data) :: [] ::
  ("### ".data ++ p.category.data) :: ("- ".data ++ p.description.data) ::
  (p.details.map (fun d => "  - ".data ++ d.data) ++
    (if p.files = [] then []
     else [] :: "### Files".data :: p.files.map (fun f => "  - `".data ++ f.data ++ "`".data)) ++
    [[]])

/-- The closed dialect set of the format registry. -/
inductive Dialect
  | keepAChangelog
  | conventional
  | dwsm
deriving DecidableEq, Repr

/-- The `formatEntry` of the formatter selected by the dialect name. -/
def formatEntry : Dialect → FormatEntryParams → String
  | Dialect.keepAChangelog, p => String.mk (joinNlSep (kacLines p))
  | Dialect.conventional, p => String.mk (joinNlSep (convLines p))
  | Dialect.dwsm, p => String.mk (joinNlSep (dwsmLines p))

/-- Well-formedness of a free-text field for the round-trip statements: it
is non-empty, carries no surrounding whitespace (so re-parsing with the
trimming item matcher returns it unchanged), and contains no line
terminator (so it stays on its formatted line and the `$` anchor can
close the line patterns). -/
def wfField (s : String) : Prop :=
  s.data ≠ [] ∧ jsTrim s.data = s.data ∧ ∀ c ∈ s.data, isLineTerm c = false

instance (s : String) : Decidable (wfField s) := by
  unfold wfField
  infer_instance

/-- A non-empty run of ASCII digits, the shape of each version component. -/
def digitRun (cs : List Char) : Prop :=
  cs ≠ [] ∧ ∀ c ∈ cs, isDigitCh c = true

instance (cs : List Char) : Decidable (digitRun cs) := by
  unfold digitRun
  infer_instance

/-- A run of exactly `n` ASCII digits, the shape of each date component. -/
def digitRunN (n : Nat) (cs : List Char) : Prop :=
  cs.length = n ∧ ∀ c ∈ cs, isDigitCh c = true

instance (n : Nat) (cs : List Char) : Decidable (digitRunN n cs) := by
  unfold digitRunN
  infer_instance

/-- Concatenation of lines each terminated by a newline; a document whose
first version heading sits at offset `(joinAllNl pres).length` decomposes
as `joinAllNl pres ++ suffix`. -/
def joinAllNl : List (List Char) → List Char
  | [] => []
  | l :: ls => l ++ '\n' :: joinAllNl ls

/-! Arithmetic and string lemmas about the helpers. -/

theorem digitChar_toNat (n : Nat) (h : n < 10) : (digitChar n).toNat = 48 + n := by
  interval_cases n <;> rfl

theorem isDigitCh_digitChar (n : Nat) (h : n < 10) : isDigitCh (digitChar n) = true := by
  interval_cases n <;> rfl

theorem natToDigitsAux_fuel (fuel1 fuel2 n : Nat) (h1 : n < fuel1) (h2 : n < fuel2) :
    natToDigitsAux fuel1 n = natToDigitsAux fuel2 n := by
  induction n using Nat.strong_induction_on generalizing fuel1 fuel2 with
  | _ n ih =>
    cases fuel1 with
    | zero => omega
    | succ f1 =>
      cases fuel2 with
      | zero => omega
      | succ f2 =>
        show (if n < 10 then [digitChar n]
            else natToDigitsAux f1 (n / 10) ++ [digitChar (n % 10)]) =
          (if n < 10 then [digitChar n]
            else natToDigitsAux f2 (n / 10) ++ [digitChar (n % 10)])
        by_cases h : n < 10
        · rw [if_pos h, if_pos h]
        · rw [if_neg h, if_neg h,
            ih (n / 10) (Nat.div_lt_self (by omega) (by omega)) f1 f2
              (by omega) (by omega)]

theorem natToDigits_eq (n : Nat) :
    natToDigits n = if n < 10 then [digitChar n]
      else natToDigits (n / 10) ++ [digitChar (n % 10)] := by
  show natToDigitsAux (n + 1) n = _
  by_cases h : n < 10
  · show (if n < 10 then _ else _) = _
    rw [if_pos h, if_pos h]
  · show (if n < 10 then _ else _) = _
    rw [if_neg h, if_neg h,
      natToDigitsAux_fuel n (n / 10 + 1) (n / 10)
        (by omega) (by omega)]
    rfl

theorem natToDigits_ne_nil (n : Nat) : natToDigits n ≠ [] := by
  rw [natToDigits_eq]
  split <;> simp

theorem natToDigits_digits (n : Nat) : ∀ c ∈ natToDigits n, isDigitCh c = true := by
  induction n using Nat.strong_induction_on with
  | _ n ih =>
    rw [natToDigits_eq]
    split
    · intro c hc
      rw [List.mem_singleton] at hc
      subst hc
      exact isDigitCh_digitChar n (by omega)
    · intro c hc
      rcases List.mem_append.mp hc with h1 | h2
      · exact ih (n / 10) (Nat.div_lt_self (by omega) (by omega)) c h1
      · rw [List.mem_singleton] at h2
        subst h2
        exact isDigitCh_digitChar (n % 10) (Nat.mod_lt _ (by omega))

theorem digitsToNat_append_singleton (xs : List Char) (c : Char) :
    digitsToNat (xs ++ [c]) = 10 * digitsToNat xs + (c.toNat - 48) := by
  unfold digitsToNat
  rw [List.foldl_append]
  simp [Nat.mul_comm]

theorem digitsToNat_natToDigits (n : Nat) : digitsToNat (natToDigits n) = n := by
  induction n using Nat.strong_induction_on with
  | _ n ih =>
    rw [natToDigits_eq]
    split
    · next h =>
      simp [digitsToNat, digitChar_toNat n h]
    · next h =>
      rw [digitsToNat_append_singleton,
        ih (n / 10) (Nat.div_lt_self (by omega) (by omega)),
        digitChar_toNat (n % 10) (Nat.mod_lt _ (by omega))]
      omega

theorem isDigitCh_not_ws {c : Char} (h : isDigitCh c = true) : isJsWs c = false := by
  simp only [isDigitCh, Bool.and_eq_true, decide_eq_true_eq] at h
  simp only [isJsWs, Bool.or_eq_false_iff, Bool.and_eq_false_iff,
    decide_eq_false_iff_not]
  omega

theorem dropWhile_eq_self_of_no_hit {p : Char → Bool} {cs : List Char}
    (h : ∀ c ∈ cs, p c = false) : cs.dropWhile p = cs := by
  cases cs with
  | nil => rfl
  | cons c rest =>
    rw [List.dropWhile_cons, h c (List.mem_cons_self c rest)]
    simp

theorem jsTrim_of_no_ws {cs : List Char} (h : ∀ c ∈ cs, isJsWs c = false) :
    jsTrim cs = cs := by
  unfold jsTrim jsTrimEnd
  rw [dropWhile_eq_self_of_no_hit h,
    dropWhile_eq_self_of_no_hit (by intro c hc; exact h c (List.mem_reverse.mp hc)),
    List.reverse_reverse]

theorem isDigitCh_ne_of_toNat {c d : Char} (h : isDigitCh c = true)
    (hd : d.toNat < 48 ∨ 57 < d.toNat) : c ≠ d := by
  intro he
  subst he
  simp only [isDigitCh, Bool.and_eq_true, decide_eq_true_eq] at h
  omega

theorem jsDigits?_all_digits {ds : List Char} (hne : ds ≠ [])
    (h : ∀ c ∈ ds, isDigitCh c = true) : jsDigits? ds = some (digitsToNat ds) := by
  unfold jsDigits?
  rw [if_neg (by simpa using hne), if_pos (by rw [List.all_eq_true]; exact h)]

theorem takeWhile_eq_self_of_all {p : Char → Bool} : ∀ (l : List Char),
    (∀ c ∈ l, p c = true) → l.takeWhile p = l := by
  intro l
  induction l with
  | nil =>
    intro _
    rfl
  | cons c tl ih =>
    intro h
    rw [List.takeWhile_cons, if_pos (h c (List.mem_cons_self c tl)),
      ih (fun x hx => h x (List.mem_cons_of_mem c hx))]

theorem dropWhile_eq_nil_of_all {p : Char → Bool} : ∀ (l : List Char),
    (∀ c ∈ l, p c = true) → l.dropWhile p = [] := by
  intro l
  induction l with
  | nil =>
    intro _
    rfl
  | cons c tl ih =>
    intro h
    rw [List.dropWhile_cons, if_pos (h c (List.mem_cons_self c tl))]
    exact ih (fun x hx => h x (List.mem_cons_of_mem c hx))

theorem all_digits_take2_ne (t : List Char) (h : ∀ c ∈ t, isDigitCh c = true)
    (c : Char) (hc : isDigitCh c = false) : t.take 2 ≠ ['0', c] := by
  intro he
  have hmem : c ∈ t.take 2 := by
    rw [he]
    simp
  have hd := h c (List.take_subset 2 t hmem)
  rw [hc] at hd
  exact Bool.noConfusion hd

theorem decValue?_digits (t : List Char) (hne : t ≠ [])
    (hall : ∀ c ∈ t, isDigitCh c = true) :
    decValue? t = some (JsNum.val ((digitsToNat t : Nat)) 0) := by
  unfold decValue?
  rw [takeWhile_eq_self_of_all t hall, dropWhile_eq_nil_of_all t hall,
    if_neg (by decide), if_neg hne]
  rfl

theorem strToNumber_natToDigits (n : Nat) :
    strToNumber (String.mk (natToDigits n)) = some (JsNum.val ((n : Nat) : Int) 0) := by
  have hall := natToDigits_digits n
  have hne := natToDigits_ne_nil n
  unfold strToNumber
  rw [show (String.mk (natToDigits n)).data = natToDigits n from rfl,
    jsTrim_of_no_ws (fun c hc => isDigitCh_not_ws (hall c hc))]
  rw [if_neg hne,
    if_neg (by
      rw [not_or]
      exact ⟨all_digits_take2_ne _ hall 'x' (by decide),
        all_digits_take2_ne _ hall 'X' (by decide)⟩),
    if_neg (by
      rw [not_or]
      exact ⟨all_digits_take2_ne _ hall 'o' (by decide),
        all_digits_take2_ne _ hall 'O' (by decide)⟩),
    if_neg (by
      rw [not_or]
      exact ⟨all_digits_take2_ne _ hall 'b' (by decide),
        all_digits_take2_ne _ hall 'B' (by decide)⟩)]
  cases hnd : natToDigits n with
  | nil => exact absurd hnd hne
  | cons d ds =>
    have hd : isDigitCh d = true := hall d (by rw [hnd]; exact List.mem_cons_self d ds)
    have hdm : d ≠ '-' := isDigitCh_ne_of_toNat hd (by left; decide)
    have hdp : d ≠ '+' := isDigitCh_ne_of_toNat hd (by left; decide)
    rw [if_neg (by simpa using hdm), if_neg (by simpa using hdp),
      if_neg (by
        intro he
        rw [show ("Infinity" : String).data = 'I' :: ("nfinity" : String).data from rfl] at he
        injection he with h1 _
        rw [h1] at hd
        exact absurd hd (by decide)),
      ← hnd, decValue?_digits _ hne hall, digitsToNat_natToDigits]

theorem jsNumToChars_val_int (m : Int) : jsNumToChars (JsNum.val m 0) = intToChars m := by
  simp [jsNumToChars]

theorem jsAdd1_val_zero (m : Int) : jsAdd1 (JsNum.val m 0) = JsNum.val (m + 1) 0 := by
  simp [jsAdd1]

theorem jsNumToChars_fallback (o : Option Int) (a : Int) :
    jsNumToChars ((o.map (fun i => JsNum.val i 0)).getD (JsNum.val a 0)) =
      intToChars (o.getD a) := by
  cases o with
  | none => exact jsNumToChars_val_int a
  | some m => exact jsNumToChars_val_int m

theorem natToDigits_no_dot (n : Nat) : '.' ∉ natToDigits n := by
  intro hmem
  have := natToDigits_digits n '.' hmem
  simp [isDigitCh] at this

theorem chSplit_cons_sep (sep : Char) (rest : List Char) :
    chSplit sep (sep :: rest) = [] :: chSplit sep rest := by
  rw [chSplit]
  simp

theorem chSplit_append_sep (sep : Char) (a rest : List Char) (ha : sep ∉ a) :
    chSplit sep (a ++ sep :: rest) = a :: chSplit sep rest := by
  induction a with
  | nil => simpa using chSplit_cons_sep sep rest
  | cons c tl ih =>
    have hc : c ≠ sep := by
      intro he
      exact ha (he ▸ List.mem_cons_self c tl)
    have htl : sep ∉ tl := fun hm => ha (List.mem_cons_of_mem c hm)
    rw [List.cons_append, chSplit, if_neg hc, ih htl]

theorem chSplit_no_sep (sep : Char) (a : List Char) (ha : sep ∉ a) :
    chSplit sep a = [a] := by
  induction a with
  | nil => rfl
  | cons c tl ih =>
    have hc : c ≠ sep := by
      intro he
      exact ha (he ▸ List.mem_cons_self c tl)
    have htl : sep ∉ tl := fun hm => ha (List.mem_cons_of_mem c hm)
    rw [chSplit, if_neg hc, ih htl]

theorem chSplit_mkVersion (a b c : Nat) :
    chSplit '.' (mkVersion a b c).data =
      [natToDigits a, natToDigits b, natToDigits c] := by
  have hdata : (mkVersion a b c).data =
      natToDigits a ++ '.' :: (natToDigits b ++ '.' :: natToDigits c) := by
    unfold mkVersion verJoin
    simp
  rw [hdata, chSplit_append_sep '.' _ _ (natToDigits_no_dot a),
    chSplit_append_sep '.' _ _ (natToDigits_no_dot b),
    chSplit_no_sep '.' _ (natToDigits_no_dot c)]

theorem intToChars_natCast (n : Nat) : intToChars (n : Int) = natToDigits n := by
  unfold intToChars
  rw [if_neg (by omega)]
  norm_num

theorem bumpVersion_mkVersion (a b c : Nat) (k : BumpKind)
    (v : Option VersioningConfig) :
    bumpVersion (mkVersion a b c) k v =
      bumpCore (JsNum.val ((a : Nat) : Int) 0) (JsNum.val ((b : Nat) : Int) 0)
        (JsNum.val ((c : Nat) : Int) 0) k v := by
  unfold bumpVersion
  rw [chSplit_mkVersion]
  simp only [List.map_cons, List.map_nil, strToNumber_natToDigits]
  rw [if_pos (by refine ⟨rfl, ?_⟩; intro x hx; fin_cases hx <;> simp)]
  rfl

/-! Theorems for the version-calculator claims. -/

/-- C3: standard semver bump semantics.  For a current version built from
three non-negative integer components, with no patch-only policy active,
`bumpVersion` performs exactly the transformation selected by the kind:
`major` yields `(M+1).0.0`, `minor` yields `M.(N+1).0`, `patch` yields
`M.N.(P+1)`, so lower components reset to zero except for patch bumps.
The `2 ^ 53` bounds restrict the statement to the range on which the
JavaScript number type is exact. -/
theorem bumpVersion_semver (a b c : Nat) (k : BumpKind)
    (v : Option VersioningConfig)
    (hmode : ∀ cfg, v = some cfg → cfg.mode = VMode.semver)
    (ha : a < 2 ^ 53) (hb : b < 2 ^ 53) (hc : c < 2 ^ 53) :
    bumpVersion (mkVersion a b c) k v =
      Except.ok (match k with
        | BumpKind.major => mkVersion (a + 1) 0 0
        | BumpKind.minor => mkVersion a (b + 1) 0
        | BumpKind.patch => mkVersion a b (c + 1)) := by
  rw [bumpVersion_mkVersion]
  have hstd : bumpStd (JsNum.val ((a : Nat) : Int) 0) (JsNum.val ((b : Nat) : Int) 0)
      (JsNum.val ((c : Nat) : Int) 0) k =
      Except.ok (match k with
        | BumpKind.major => mkVersion (a + 1) 0 0
        | BumpKind.minor => mkVersion a (b + 1) 0
        | BumpKind.patch => mkVersion a b (c + 1)) := by
    cases k with
    | major =>
      unfold bumpStd
      simp only [jsAdd1_val_zero]
      rw [show ((a : Int) + 1) = ((a + 1 : Nat) : Int) from by push_cast; ring]
      simp only [jsNumToChars_val_int, intToChars_natCast]
      rfl
    | minor =>
      unfold bumpStd
      simp only [jsAdd1_val_zero]
      rw [show ((b : Int) + 1) = ((b + 1 : Nat) : Int) from by push_cast; ring]
      simp only [jsNumToChars_val_int, intToChars_natCast]
      rfl
    | patch =>
      unfold bumpStd
      simp only [jsAdd1_val_zero]
      rw [show ((c : Int) + 1) = ((c + 1 : Nat) : Int) from by push_cast; ring]
      simp only [jsNumToChars_val_int, intToChars_natCast]
      rfl
  unfold bumpCore
  rw [if_neg (by
    cases v with
    | none => intro hcontra; cases hcontra
    | some cfg =>
      have hm := hmode cfg rfl
      simp [hm]), hstd]

/-- Witness for C3 at the inputs of the specification examples. -/
theorem bumpVersion_semver_witness :
    bumpVersion "1.2.3" BumpKind.major none = Except.ok "2.0.0" ∧
    bumpVersion "1.2.3" BumpKind.minor none = Except.ok "1.3.0" ∧
    bumpVersion "1.2.3" BumpKind.patch none = Except.ok "1.2.4" := by
  have hnone : ∀ cfg : VersioningConfig, (none : Option VersioningConfig) = some cfg →
      cfg.mode = VMode.semver := by
    intro cfg h
    cases h
  refine ⟨?_, ?_, ?_⟩
  · exact bumpVersion_semver 1 2 3 BumpKind.major none hnone
      (by norm_num) (by norm_num) (by norm_num)
  · exact bumpVersion_semver 1 2 3 BumpKind.minor none hnone
      (by norm_num) (by norm_num) (by norm_num)
  · exact bumpVersion_semver 1 2 3 BumpKind.patch none hnone
      (by norm_num) (by norm_num) (by norm_num)

/-- C4: patch-only mode.  For any valid three-component current version and
any requested bump kind, a patch-only policy makes `bumpVersion` return
`fixedMajor.fixedMinor.(P+1)`, the fixed components falling back to the
current major and minor when unset.  The `2 ^ 53` bounds restrict the
statement to the range on which the JavaScript number type is exact. -/
theorem bumpVersion_patchOnly (a b c : Nat) (k : BumpKind) (cfg : VersioningConfig)
    (hmode : cfg.mode = VMode.patchOnly)
    (ha : a < 2 ^ 53) (hb : b < 2 ^ 53) (hc : c < 2 ^ 53)
    (hfm : ∀ m, cfg.fixedMajor = some m → m.natAbs < 2 ^ 53)
    (hfn : ∀ m, cfg.fixedMinor = some m → m.natAbs < 2 ^ 53) :
    bumpVersion (mkVersion a b c) k (some cfg) =
      Except.ok (String.mk (verJoin
        (intToChars (cfg.fixedMajor.getD (a : Int)))
        (intToChars (cfg.fixedMinor.getD (b : Int)))
        (natToDigits (c + 1)))) := by
  rw [bumpVersion_mkVersion]
  unfold bumpCore
  rw [if_pos (by simp [hmode])]
  simp only [jsAdd1_val_zero, Option.some_bind]
  rw [show ((c : Int) + 1) = ((c + 1 : Nat) : Int) from by push_cast; ring,
    jsNumToChars_fallback cfg.fixedMajor ((a : Nat) : Int),
    jsNumToChars_fallback cfg.fixedMinor ((b : Nat) : Int),
    jsNumToChars_val_int, intToChars_natCast]

/-- Witness for C4 at the inputs of the specification example. -/
theorem bumpVersion_patchOnly_witness :
    mkVersion 0 1 7 = "0.1.7" ∧
    bumpVersion "0.1.7" BumpKind.major
      (some (VersioningConfig.mk VMode.patchOnly (some 0) (some 1))) =
      Except.ok "0.1.8" := by
  constructor
  · decide
  · exact bumpVersion_patchOnly 0 1 7 BumpKind.major
      (VersioningConfig.mk VMode.patchOnly (some 0) (some 1)) rfl
      (by norm_num) (by norm_num) (by norm_num)
      (by intro m hm; injection hm with h; rw [← h]; norm_num)
      (by intro m hm; injection hm with h; rw [← h]; norm_num)

/-- C5, counterexample: components that are not non-negative integers do
not necessarily make `bumpVersion` fail, contradicting the claim that any
string other than three non-negative integers is rejected: a negative
component (`1.2.-3` bumps to `1.2.-2`), an exponent form (`1.2.1e1`
coerces to 10 and bumps to `1.2.11`), a hexadecimal form (`1.2.0x10`
coerces to 16 and bumps to `1.2.17`) and an infinite form
(`1.2.Infinity` bumps to `1.2.Infinity`) are all accepted. -/
theorem bumpVersion_negative_component_accepted :
    bumpVersion "1.2.-3" BumpKind.patch none = Except.ok "1.2.-2" ∧
    bumpVersion "1.2.1e1" BumpKind.patch none = Except.ok "1.2.11" ∧
    bumpVersion "1.2.0x10" BumpKind.patch none = Except.ok "1.2.17" ∧
    bumpVersion "1.2.Infinity" BumpKind.patch none = Except.ok "1.2.Infinity" := by
  exact ⟨rfl, rfl, rfl, rfl⟩

theorem bumpCore_ne_error (a b c : JsNum) (k : BumpKind)
    (v : Option VersioningConfig) (e : VersionError) :
    bumpCore a b c k v ≠ Except.error e := by
  unfold bumpCore bumpStd
  split
  · simp
  · cases k <;> simp

/-- C5, amended: `bumpVersion` fails with `InvalidVersion` if and only if
the input does not split at `.` into exactly three components that the
JavaScript `Number` coercion accepts.  Every `A.B.C` with non-negative
integer components is accepted, wrong component counts and non-numeric
components are rejected, but the coercion also accepts components such as
negative integers, the empty string (which `Number` coerces to `0`),
exponent forms, hexadecimal, octal and binary literals, and the
infinities. -/
theorem bumpVersion_error_iff (current : String) (k : BumpKind)
    (v : Option VersioningConfig) :
    bumpVersion current k v = Except.error (VersionError.invalidVersion current) ↔
      ¬ ((chSplit '.' current.data).length = 3 ∧
        ∀ p ∈ chSplit '.' current.data, strToNumber (String.mk p) ≠ none) := by
  unfold bumpVersion
  by_cases h : ((chSplit '.' current.data).map
      (fun p => strToNumber (String.mk p))).length = 3 ∧
      ∀ x ∈ (chSplit '.' current.data).map (fun p => strToNumber (String.mk p)), x ≠ none
  · rw [if_pos h]
    constructor
    · intro hcontra
      exact absurd hcontra (bumpCore_ne_error _ _ _ _ _ _)
    · intro hcontra
      exfalso
      apply hcontra
      constructor
      · simpa using h.1
      · intro p hp
        exact h.2 (strToNumber (String.mk p)) (List.mem_map_of_mem _ hp)
  · rw [if_neg h]
    constructor
    · intro _ hcontra
      apply h
      constructor
      · simpa using hcontra.1
      · intro x hx
        rcases List.mem_map.mp hx with ⟨p, hp, rfl⟩
        exact hcontra.2 p hp
    · intro _
      rfl

/-! Theorems for the backup-rotation claim. -/

theorem charListLe_total : ∀ a b, charListLe a b = true ∨ charListLe b a = true := by
  intro a
  induction a with
  | nil =>
    intro b
    left
    rfl
  | cons x xs ih =>
    intro b
    cases b with
    | nil =>
      right
      rfl
    | cons y ys =>
      by_cases h1 : x.toNat < y.toNat
      · left
        simp [charListLe, h1]
      · by_cases h2 : y.toNat < x.toNat
        · right
          simp [charListLe, h2]
        · rcases ih ys with h | h
          · left
            simp [charListLe, h1, h2, h]
          · right
            simp [charListLe, h1, h2, h]

theorem charListLe_trans : ∀ a b c, charListLe a b = true → charListLe b c = true →
    charListLe a c = true := by
  intro a
  induction a with
  | nil =>
    intro b c _ _
    rfl
  | cons x xs ih =>
    intro b c hab hbc
    cases b with
    | nil => simp [charListLe] at hab
    | cons y ys =>
      cases c with
      | nil => simp [charListLe] at hbc
      | cons z zs =>
        by_cases hxy : x.toNat < y.toNat
        · by_cases hyz : y.toNat < z.toNat
          · simp [charListLe, show x.toNat < z.toNat from by omega]
          · by_cases hzy : z.toNat < y.toNat
            · simp [charListLe, hyz, hzy] at hbc
            · simp [charListLe, show x.toNat < z.toNat from by omega]
        · by_cases hyx : y.toNat < x.toNat
          · simp [charListLe, hxy, hyx] at hab
          · simp only [charListLe, if_neg hxy, if_neg hyx] at hab
            by_cases hyz : y.toNat < z.toNat
            · simp [charListLe, show x.toNat < z.toNat from by omega]
            · by_cases hzy : z.toNat < y.toNat
              · simp [charListLe, hyz, hzy] at hbc
              · simp only [charListLe, if_neg hyz, if_neg hzy] at hbc
                simp only [charListLe, if_neg (show ¬ x.toNat < z.toNat from by omega),
                  if_neg (show ¬ z.toNat < x.toNat from by omega)]
                exact ih ys zs hab hbc

instance : IsTotal String (fun a b => strLeB a b = true) :=
  ⟨fun a b => charListLe_total a.data b.data⟩

instance : IsTrans String (fun a b => strLeB a b = true) :=
  ⟨fun a b c => charListLe_trans a.data b.data c.data⟩

/-- C9: backup rotation.  `cleanupOldBackups` considers exactly the
`changelog_` snapshots of the listing; when they do not exceed `maxFiles`
nothing is deleted, and otherwise it deletes exactly the excess oldest
ones in lexicographic order: the deleted files are the leading slice of
the sorted snapshots, their count is the excess, the kept remainder has
exactly `maxFiles` elements which are a permutation-complement of the
snapshots, and every deleted name is lexicographically at most every kept
name. -/
theorem cleanupOldBackups_spec (files : List String) (maxFiles : Nat) :
    ((snapshotFiles files).length ≤ maxFiles → cleanupOldBackups files maxFiles = []) ∧
    (maxFiles < (snapshotFiles files).length →
      cleanupOldBackups files maxFiles =
        (sortedSnapshots files).take ((snapshotFiles files).length - maxFiles) ∧
      (cleanupOldBackups files maxFiles).length = (snapshotFiles files).length - maxFiles ∧
      ((sortedSnapshots files).drop ((snapshotFiles files).length - maxFiles)).length = maxFiles ∧
      cleanupOldBackups files maxFiles ++
        (sortedSnapshots files).drop ((snapshotFiles files).length - maxFiles) =
        sortedSnapshots files ∧
      (sortedSnapshots files).Perm (snapshotFiles files) ∧
      ∀ d ∈ cleanupOldBackups files maxFiles,
        ∀ g ∈ (sortedSnapshots files).drop ((snapshotFiles files).length - maxFiles),
          strLeB d g = true) := by
  have hlen : (sortedSnapshots files).length = (snapshotFiles files).length :=
    List.length_insertionSort _ _
  constructor
  · intro h
    unfold cleanupOldBackups
    rw [if_pos (by omega)]
  · intro h
    have hcl : cleanupOldBackups files maxFiles =
        (sortedSnapshots files).take ((snapshotFiles files).length - maxFiles) := by
      unfold cleanupOldBackups
      rw [if_neg (by omega), hlen]
    refine ⟨hcl, ?_, ?_, ?_, ?_, ?_⟩
    · rw [hcl, List.length_take]
      omega
    · rw [List.length_drop]
      omega
    · rw [hcl, List.take_append_drop]
    · exact List.perm_insertionSort _ _
    · intro d hd g hg
      have hs : List.Sorted (fun a b : String => strLeB a b = true) (sortedSnapshots files) :=
        List.sorted_insertionSort _ _
      rw [← List.take_append_drop ((snapshotFiles files).length - maxFiles)
        (sortedSnapshots files)] at hs
      have hcross := (List.pairwise_append.mp hs).2.2
      rw [hcl] at hd
      exact hcross d hd g hg

/-- Witness for C9 at the inputs of the specification example: three dated
snapshots, `maxFiles = 2`, exactly the single oldest file is deleted. -/
theorem cleanupOldBackups_witness :
    cleanupOldBackups
      ["changelog_20260102.md", "changelog_20260101.md", "changelog_20260103.md"] 2 =
      ["changelog_20260101.md"] ∧
    (cleanupOldBackups
      ["changelog_20260102.md", "changelog_20260101.md", "changelog_20260103.md"] 2).length =
      3 - 2 := by
  constructor
  · decide
  · rw [((cleanupOldBackups_spec
      ["changelog_20260102.md", "changelog_20260101.md", "changelog_20260103.md"] 2).2
      (by decide)).2.1]
    decide

/-! Theorems for the split-manager claims. -/

/-- C2: split partitioning.  With the changelog readable, `splitChangelog`
fails with the insufficient-entries error below two parsed entries;
otherwise it succeeds with `entriesKept = ceil(n/2)` and
`entriesMoved = n - ceil(n/2)`, its archive write carries the dropped
(oldest) entries and its main write the taken (newest, first in document
order) entries, and the kept raw blocks followed by the archived raw
blocks in original order are exactly the raw blocks of all parsed
entries. -/
theorem splitChangelog_spec (changelogPath dateStr content : String) (fs : FileSys)
    (hread : fs changelogPath = some content) :
    ((parseEntries content).length < 2 →
      splitChangelog changelogPath dateStr fs =
        Except.error (SplitError.insufficientEntries (parseEntries content).length)) ∧
    (2 ≤ (parseEntries content).length →
      splitChangelog changelogPath dateStr fs =
        Except.ok (splitBuild changelogPath dateStr content) ∧
      (splitBuild changelogPath dateStr content).1.entriesKept =
        splitIndexOf (parseEntries content).length ∧
      (splitBuild changelogPath dateStr content).1.entriesMoved =
        (parseEntries content).length - splitIndexOf (parseEntries content).length ∧
      (splitBuild changelogPath dateStr content).2 =
        [FsOp.write (pathJoin (pathDirname changelogPath) (archiveFileNameOf dateStr))
          (archiveContentOf dateStr
            ((parseEntries content).drop (splitIndexOf (parseEntries content).length))),
         FsOp.write changelogPath
          (mainContentOf content (archiveFileNameOf dateStr)
            ((parseEntries content).take (splitIndexOf (parseEntries content).length))
            ((parseEntries content).headD (ParsedEntry.mk "" "" "" [])).rawContent)] ∧
      ((parseEntries content).take (splitIndexOf (parseEntries content).length)).map
          ParsedEntry.rawContent ++
        ((parseEntries content).drop (splitIndexOf (parseEntries content).length)).map
          ParsedEntry.rawContent =
        (parseEntries content).map ParsedEntry.rawContent) := by
  have hsplit : splitChangelog changelogPath dateStr fs =
      (if (parseEntries content).length < 2 then
        Except.error (SplitError.insufficientEntries (parseEntries content).length)
      else Except.ok (splitBuild changelogPath dateStr content)) := by
    unfold splitChangelog
    rw [hread]
  constructor
  · intro h2
    rw [hsplit, if_pos h2]
  · intro h2
    refine ⟨by rw [hsplit, if_neg (by omega)], ?_, ?_, rfl, ?_⟩
    · show ((parseEntries content).take
          (splitIndexOf (parseEntries content).length)).length = _
      rw [List.length_take]
      unfold splitIndexOf
      omega
    · show ((parseEntries content).drop
          (splitIndexOf (parseEntries content).length)).length = _
      rw [List.length_drop]
    · rw [← List.map_append, List.take_append_drop]

set_option maxRecDepth 8000 in
/-- Witness for C2 on a four-entry changelog: two entries are kept, two
are archived, counts as specified. -/
theorem splitChangelog_witness :
    splitChangelog "/p/CHANGELOG.md" "20260111"
      (fun q => if q = "/p/CHANGELOG.md"
        then some ("## [1.3.0] - 2026-01-04\n### Added\n- d\n\n## [1.2.0] - 2026-01-03\n### Added\n- c\n\n## [1.1.0] - 2026-01-02\n### Added\n- b\n\n## [1.0.0] - 2026-01-01\n### Added\n- a\n")
        else none) =
      Except.ok (splitBuild "/p/CHANGELOG.md" "20260111"
        "## [1.3.0] - 2026-01-04\n### Added\n- d\n\n## [1.2.0] - 2026-01-03\n### Added\n- c\n\n## [1.1.0] - 2026-01-02\n### Added\n- b\n\n## [1.0.0] - 2026-01-01\n### Added\n- a\n") ∧
    (parseEntries "## [1.3.0] - 2026-01-04\n### Added\n- d\n\n## [1.2.0] - 2026-01-03\n### Added\n- c\n\n## [1.1.0] - 2026-01-02\n### Added\n- b\n\n## [1.0.0] - 2026-01-01\n### Added\n- a\n").length = 4 ∧
    (splitBuild "/p/CHANGELOG.md" "20260111"
      "## [1.3.0] - 2026-01-04\n### Added\n- d\n\n## [1.2.0] - 2026-01-03\n### Added\n- c\n\n## [1.1.0] - 2026-01-02\n### Added\n- b\n\n## [1.0.0] - 2026-01-01\n### Added\n- a\n").1.entriesKept = 2 ∧
    (splitBuild "/p/CHANGELOG.md" "20260111"
      "## [1.3.0] - 2026-01-04\n### Added\n- d\n\n## [1.2.0] - 2026-01-03\n### Added\n- c\n\n## [1.1.0] - 2026-01-02\n### Added\n- b\n\n## [1.0.0] - 2026-01-01\n### Added\n- a\n").1.entriesMoved = 2 := by
  have h := (splitChangelog_spec "/p/CHANGELOG.md" "20260111"
    "## [1.3.0] - 2026-01-04\n### Added\n- d\n\n## [1.2.0] - 2026-01-03\n### Added\n- c\n\n## [1.1.0] - 2026-01-02\n### Added\n- b\n\n## [1.0.0] - 2026-01-01\n### Added\n- a\n"
    (fun q => if q = "/p/CHANGELOG.md"
      then some ("## [1.3.0] - 2026-01-04\n### Added\n- d\n\n## [1.2.0] - 2026-01-03\n### Added\n- c\n\n## [1.1.0] - 2026-01-02\n### Added\n- b\n\n## [1.0.0] - 2026-01-01\n### Added\n- a\n")
      else none) (by decide)).2 (by decide)
  refine ⟨h.1, by decide, ?_, ?_⟩
  · rw [h.2.1]
    decide
  · rw [h.2.2.1]
    decide

theorem applyOps_single_other (p q : String) (c : String) (fs : FileSys) (h : q ≠ p) :
    applyOps [FsOp.write p c] fs q = fs q := by
  simp [applyOps, h]

/-- C7: crash-safety ordering of the split.  Every successful run issues
exactly two writes, the archive write strictly before the main-file
overwrite; applying any proper prefix of the writes (the states an
interruption before the main write can leave) does not change the main
changelog file.  The hypothesis that the archive path differs from the
changelog path rules out the degenerate configuration in which the
changelog file is itself named like a dated archive. -/
theorem splitChangelog_archive_first (changelogPath dateStr : String) (fs : FileSys)
    (r : SplitResult) (ops : List FsOp)
    (hok : splitChangelog changelogPath dateStr fs = Except.ok (r, ops))
    (hdist : r.archivePath ≠ changelogPath) :
    (∃ archC mainC,
      ops = [FsOp.write r.archivePath archC, FsOp.write changelogPath mainC]) ∧
    ∀ k, k ≤ 1 → applyOps (ops.take k) fs changelogPath = fs changelogPath := by
  cases hfs : fs changelogPath with
  | none =>
    have hbad : splitChangelog changelogPath dateStr fs =
        Except.error (SplitError.fileNotFound changelogPath) := by
      unfold splitChangelog
      rw [hfs]
    rw [hbad] at hok
    exact absurd hok (by simp)
  | some content =>
    have hsp : splitChangelog changelogPath dateStr fs =
        (if (parseEntries content).length < 2 then
          Except.error (SplitError.insufficientEntries (parseEntries content).length)
        else Except.ok (splitBuild changelogPath dateStr content)) := by
      unfold splitChangelog
      rw [hfs]
    rw [hsp] at hok
    by_cases hn : (parseEntries content).length < 2
    · rw [if_pos hn] at hok
      exact absurd hok (by simp)
    · rw [if_neg hn] at hok
      have hpair : splitBuild changelogPath dateStr content = (r, ops) := by
        injection hok
      have hops : ops = (splitBuild changelogPath dateStr content).2 := by
        rw [hpair]
      have hr : r = (splitBuild changelogPath dateStr content).1 := by
        rw [hpair]
      constructor
      · refine ⟨archiveContentOf dateStr
          ((parseEntries content).drop (splitIndexOf (parseEntries content).length)),
          mainContentOf content (archiveFileNameOf dateStr)
            ((parseEntries content).take (splitIndexOf (parseEntries content).length))
            ((parseEntries content).headD (ParsedEntry.mk "" "" "" [])).rawContent, ?_⟩
        rw [hops, hr]
        rfl
      · intro k hk
        interval_cases k
        · exact hfs
        · rw [hops]
          have hd2 : changelogPath ≠
              (splitBuild changelogPath dateStr content).1.archivePath := by
            rw [← hr]
            exact fun hcontra => hdist hcontra.symm
          show applyOps [FsOp.write
            ((splitBuild changelogPath dateStr content).1.archivePath)
            (archiveContentOf dateStr
              ((parseEntries content).drop
                (splitIndexOf (parseEntries content).length)))] fs changelogPath =
            some content
          exact (applyOps_single_other
            ((splitBuild changelogPath dateStr content).1.archivePath) changelogPath
            (archiveContentOf dateStr
              ((parseEntries content).drop
                (splitIndexOf (parseEntries content).length))) fs hd2).trans hfs

set_option maxRecDepth 8000 in
/-- Witness for C7 on a two-entry changelog: the archive write precedes
the main write and a crash between them leaves the main file unchanged. -/
theorem splitChangelog_archive_first_witness :
    (∃ archC mainC,
      (splitBuild "/p/CHANGELOG.md" "20260101"
        "## [1.0.0] - 2026-01-02\n### Added\n- a\n\n## [0.9.0] - 2026-01-01\n### Added\n- b\n").2 =
        [FsOp.write "/p/CHANGELOG-archive-20260101.md" archC,
         FsOp.write "/p/CHANGELOG.md" mainC]) ∧
    ∀ k, k ≤ 1 →
      applyOps (((splitBuild "/p/CHANGELOG.md" "20260101"
        "## [1.0.0] - 2026-01-02\n### Added\n- a\n\n## [0.9.0] - 2026-01-01\n### Added\n- b\n").2).take k)
        (fun q => if q = "/p/CHANGELOG.md"
          then some ("## [1.0.0] - 2026-01-02\n### Added\n- a\n\n## [0.9.0] - 2026-01-01\n### Added\n- b\n")
          else none) "/p/CHANGELOG.md" =
      (fun q => if q = "/p/CHANGELOG.md"
        then some ("## [1.0.0] - 2026-01-02\n### Added\n- a\n\n## [0.9.0] - 2026-01-01\n### Added\n- b\n")
        else none) "/p/CHANGELOG.md" := by
  have h := splitChangelog_archive_first "/p/CHANGELOG.md" "20260101"
    (fun q => if q = "/p/CHANGELOG.md"
      then some ("## [1.0.0] - 2026-01-02\n### Added\n- a\n\n## [0.9.0] - 2026-01-01\n### Added\n- b\n")
      else none)
    (splitBuild "/p/CHANGELOG.md" "20260101"
      "## [1.0.0] - 2026-01-02\n### Added\n- a\n\n## [0.9.0] - 2026-01-01\n### Added\n- b\n").1
    (splitBuild "/p/CHANGELOG.md" "20260101"
      "## [1.0.0] - 2026-01-02\n### Added\n- a\n\n## [0.9.0] - 2026-01-01\n### Added\n- b\n").2
    (by rfl) (by decide)
  exact h

/-! Theorem for the date-less-entries claim. -/

set_option maxRecDepth 8000 in
/-- C8: the heading `## [1.2.3]` without a date yields no parsed entry at
all — every alternative of `VERSION_BLOCK_PATTERN` requires a full date —
while the same document with the date parses; the claim (and the doc
comments of `ParsedEntry.date` and of the pattern in the source) say the
date-less heading should parse with an empty date. -/
theorem parseEntries_dateless : parseEntries "## [1.2.3]\n\n### Added\n- x\n" = [] ∧
    parseEntries "## [1.2.3] - 2026-01-01\n\n### Added\n- x\n" ≠ [] := by
  constructor
  · decide
  · decide

/-! Theorems for the insertion-planner claims. -/

theorem takeWhile_append_nl (l rest : List Char) (h : '\n' ∉ l) :
    (l ++ '\n' :: rest).takeWhile (fun c => c != '\n') = l := by
  induction l with
  | nil => simp
  | cons c tl ih =>
    have hc : c ≠ '\n' := fun he => h (he ▸ List.mem_cons_self c tl)
    have htl : '\n' ∉ tl := fun hm => h (List.mem_cons_of_mem c hm)
    simp only [List.cons_append, List.takeWhile_cons]
    rw [if_pos (by simp [hc]), ih htl]

theorem matchInsertHeading_line (l rest : List Char) (h : '\n' ∉ l) :
    matchInsertHeading (l ++ '\n' :: rest) = insertHeadLine l := by
  unfold matchInsertHeading
  rw [takeWhile_append_nl l rest h]

theorem nlSuffixes_append_line (l rest : List Char) (h : '\n' ∉ l) :
    nlSuffixes (l ++ '\n' :: rest) = rest :: nlSuffixes rest := by
  induction l with
  | nil => simp [nlSuffixes]
  | cons c tl ih =>
    have hc : c ≠ '\n' := fun he => h (he ▸ List.mem_cons_self c tl)
    have htl : '\n' ∉ tl := fun hm => h (List.mem_cons_of_mem c hm)
    simp only [List.cons_append, nlSuffixes, if_neg hc]
    exact ih htl

theorem findSome?_insert_offset (N : Nat) : ∀ (pres : List (List Char)) (suf : List Char),
    (∀ l ∈ pres, '\n' ∉ l ∧ insertHeadLine l = false) →
    matchInsertHeading suf = true →
    (lineSuffixes (joinAllNl pres ++ suf)).findSome?
      (fun s => if matchInsertHeading s then some (N - s.length) else none) =
      some (N - suf.length) := by
  intro pres
  induction pres with
  | nil =>
    intro suf _ hsuf
    simp [joinAllNl, lineSuffixes, List.findSome?_cons, hsuf]
  | cons l tl ih =>
    intro suf hpres hsuf
    have hl := hpres l (List.mem_cons_self l tl)
    have htl : ∀ x ∈ tl, '\n' ∉ x ∧ insertHeadLine x = false :=
      fun x hx => hpres x (List.mem_cons_of_mem l hx)
    have hjoin : joinAllNl (l :: tl) ++ suf = l ++ '\n' :: (joinAllNl tl ++ suf) := by
      simp [joinAllNl]
    rw [hjoin]
    unfold lineSuffixes
    rw [nlSuffixes_append_line l _ hl.1]
    have hfirst : matchInsertHeading (l ++ '\n' :: (joinAllNl tl ++ suf)) = false := by
      rw [matchInsertHeading_line _ _ hl.1, hl.2]
    simp only [List.findSome?_cons, hfirst, Bool.false_eq_true, if_false]
    exact ih suf htl hsuf

/-- C6: insertion before the newest entry.  For every document that
decomposes into newline-terminated leading lines, none of which matches
the version-heading pattern, followed by a suffix whose first line does
match it, `findInsertPosition` returns exactly the character offset of
that heading line — insertion is immediately before the first version
heading, not before the leading title. -/
theorem findInsertPosition_first_heading (pres : List (List Char)) (suf : List Char)
    (content : String) (hcontent : content.data = joinAllNl pres ++ suf)
    (hpres : ∀ l ∈ pres, '\n' ∉ l ∧ insertHeadLine l = false)
    (hsuf : matchInsertHeading suf = true) :
    findInsertPosition content = (joinAllNl pres).length := by
  simp only [findInsertPosition]
  rw [hcontent, findSome?_insert_offset (joinAllNl pres ++ suf).length pres suf hpres hsuf]
  simp [List.length_append]

set_option maxRecDepth 8000 in
/-- Witness for C6 at the document of the specification example: the
insertion offset is that of the existing heading (offset 26), not the
leading title at offset 0. -/
theorem findInsertPosition_first_heading_witness :
    findInsertPosition
      "# Changelog\n\nSome intro.\n\n## [1.0.0] - 2026-01-01\n### Added\n- x\n" = 26 ∧
    (26 : Nat) ≠ 0 := by
  constructor
  · have h := findInsertPosition_first_heading
      ["# Changelog".data, [], "Some intro.".data, []]
      "## [1.0.0] - 2026-01-01\n### Added\n- x\n".data
      "# Changelog\n\nSome intro.\n\n## [1.0.0] - 2026-01-01\n### Added\n- x\n"
      (by decide) (by decide) (by decide)
    rw [h]
    decide
  · decide

set_option maxRecDepth 8000 in
/-- C10, counterexample: a document whose only recognized heading is the
DWSM heading `v1.0.0 (2020-01-01)` at offset 5 on which
`findInsertPosition` nevertheless returns exactly that offset — the
header-block fallback ends right before the heading because the document
has no trailing newline.  The claim that the returned position is never
the offset of the first DWSM heading is therefore false as stated. -/
theorem findInsertPosition_dwsm_counterexample :
    parseEntries "# T\n\nv1.0.0 (2020-01-01)" =
      [ParsedEntry.mk "1.0.0" "2020-01-01" "v1.0.0 (2020-01-01)" []] ∧
    "# T\n\nv1.0.0 (2020-01-01)" = "# T\n\n" ++ "v1.0.0 (2020-01-01)" ∧
    ("# T\n\n" : String).length = 5 ∧
    findInsertPosition "# T\n\nv1.0.0 (2020-01-01)" = 5 := by
  refine ⟨by decide, by decide, by decide, by decide⟩

/-- C10, amended: the version-heading branch of `findInsertPosition`
never fires on a DWSM heading — no line starting with `v` matches the
`## X.Y.Z` / `## [X.Y.Z]` pattern — and on every document none of whose
lines matches that pattern (in particular a document whose recognized
headings are all DWSM-shaped and which has no other `## D.D.D` line) the
result comes from the header-block or end-of-document fallback; that
fallback offset may still coincide with the offset of the first DWSM
heading, as in the counterexample. -/
theorem findInsertPosition_dwsm_amended :
    (∀ rest : List Char, matchInsertHeading ('v' :: rest) = false) ∧
    (∀ content : String,
      (∀ suf ∈ lineSuffixes content.data, matchInsertHeading suf = false) →
      findInsertPosition content = findInsertFallback content.data) := by
  constructor
  · intro rest
    simp [matchInsertHeading, insertHeadLine, headIs, List.takeWhile_cons]
  · intro content h
    have hnone : (lineSuffixes content.data).findSome?
        (fun suf => if matchInsertHeading suf
          then some (content.data.length - suf.length) else none) = none := by
      apply List.findSome?_eq_none_iff.mpr
      intro s hs
      simp [h s hs]
    simp only [findInsertPosition]
    rw [hnone]

set_option maxRecDepth 8000 in
/-- Witness for C10: the DWSM heading line does not match the heading
branch, and on a fully DWSM document the result equals the fallback. -/
theorem findInsertPosition_dwsm_amended_witness :
    matchInsertHeading ('v' :: "1.0.0 (2020-01-01)".data) = false ∧
    findInsertPosition "# Changelog\n\nv1.0.0 (2020-01-01)\n### Added\n- x\n" =
      findInsertFallback "# Changelog\n\nv1.0.0 (2020-01-01)\n### Added\n- x\n".data := by
  exact ⟨findInsertPosition_dwsm_amended.1 _,
    findInsertPosition_dwsm_amended.2 _ (by decide)⟩

/-! Lemmas for the round-trip claim: behavior of the heading matchers on a
digit run followed by a known delimiter. -/

theorem takeWhile_append_neg {p : Char → Bool} (xs : List Char) (y : Char) (ys : List Char)
    (hxs : ∀ c ∈ xs, p c = true) (hy : p y = false) :
    (xs ++ y :: ys).takeWhile p = xs := by
  induction xs with
  | nil => simp [List.takeWhile_cons, hy]
  | cons c tl ih =>
    have hc := hxs c (List.mem_cons_self c tl)
    have htl : ∀ c ∈ tl, p c = true := fun x hx => hxs x (List.mem_cons_of_mem c hx)
    simp [List.takeWhile_cons, hc, ih htl]

theorem dropWhile_append_neg {p : Char → Bool} (xs : List Char) (y : Char) (ys : List Char)
    (hxs : ∀ c ∈ xs, p c = true) (hy : p y = false) :
    (xs ++ y :: ys).dropWhile p = y :: ys := by
  induction xs with
  | nil => simp [List.dropWhile_cons, hy]
  | cons c tl ih =>
    have hc := hxs c (List.mem_cons_self c tl)
    have htl : ∀ c ∈ tl, p c = true := fun x hx => hxs x (List.mem_cons_of_mem c hx)
    simp [List.dropWhile_cons, hc, ih htl]

theorem headIs_cons_self (c : Char) (rest : List Char) : headIs c (c :: rest) = some rest := by
  simp [headIs]

theorem matchVer_append (v1 v2 v3 : List Char) (y : Char) (ys : List Char)
    (h1 : digitRun v1) (h2 : digitRun v2) (h3 : digitRun v3) (hy : isDigitCh y = false) :
    matchVer (v1 ++ '.' :: (v2 ++ '.' :: (v3 ++ y :: ys))) =
      some (v1 ++ '.' :: v2 ++ '.' :: v3, y :: ys) := by
  have hdot : isDigitCh '.' = false := rfl
  unfold matchVer
  rw [takeWhile_append_neg v1 '.' _ h1.2 hdot,
    dropWhile_append_neg v1 '.' _ h1.2 hdot,
    if_neg h1.1, headIs_cons_self, Option.some_bind,
    takeWhile_append_neg v2 '.' _ h2.2 hdot,
    dropWhile_append_neg v2 '.' _ h2.2 hdot,
    if_neg h2.1, headIs_cons_self, Option.some_bind,
    takeWhile_append_neg v3 y _ h3.2 hy,
    dropWhile_append_neg v3 y _ h3.2 hy,
    if_neg h3.1]

theorem matchNDigits_append (xs rest : List Char) (h : ∀ c ∈ xs, isDigitCh c = true) :
    matchNDigits xs.length (xs ++ rest) = some (xs, rest) := by
  induction xs with
  | nil => rfl
  | cons c tl ih =>
    have hc := h c (List.mem_cons_self c tl)
    have htl : ∀ x ∈ tl, isDigitCh x = true := fun x hx => h x (List.mem_cons_of_mem c hx)
    simp [matchNDigits, hc, ih htl]

theorem matchNDigits_append_of (n : Nat) (xs rest : List Char) (hn : xs.length = n)
    (h : ∀ c ∈ xs, isDigitCh c = true) : matchNDigits n (xs ++ rest) = some (xs, rest) := by
  subst hn
  exact matchNDigits_append xs rest h

theorem matchDate_append (dy dm dd rest : List Char)
    (h4 : digitRunN 4 dy) (hm : digitRunN 2 dm) (hd : digitRunN 2 dd) :
    matchDate (dy ++ '-' :: (dm ++ '-' :: (dd ++ rest))) =
      some (dy ++ '-' :: dm ++ '-' :: dd, rest) := by
  unfold matchDate
  rw [matchNDigits_append_of 4 dy _ h4.1 h4.2, Option.some_bind, headIs_cons_self,
    Option.some_bind, matchNDigits_append_of 2 dm _ hm.1 hm.2, Option.some_bind,
    headIs_cons_self, Option.some_bind, matchNDigits_append_of 2 dd _ hd.1 hd.2]
  rfl

theorem skipWs_cons_space (cs : List Char) : skipWs (' ' :: cs) = skipWs cs := by
  unfold skipWs
  rw [List.dropWhile_cons, if_pos (by decide)]

theorem skipWs_not_ws (c : Char) (cs : List Char) (h : isJsWs c = false) :
    skipWs (c :: cs) = c :: cs := by
  simp [skipWs, List.dropWhile_cons, h]

theorem skipWs_head_digit (xs rest : List Char) (hne : xs ≠ [])
    (hall : ∀ c ∈ xs, isDigitCh c = true) : skipWs (xs ++ rest) = xs ++ rest := by
  cases xs with
  | nil => exact absurd rfl hne
  | cons c tl =>
    exact skipWs_not_ws c _ (isDigitCh_not_ws (hall c (List.mem_cons_self c tl)))

theorem tryKac_heading (v1 v2 v3 dy dm dd rest : List Char)
    (h1 : digitRun v1) (h2 : digitRun v2) (h3 : digitRun v3)
    (h4 : digitRunN 4 dy) (hm : digitRunN 2 dm) (hd : digitRunN 2 dd) :
    tryKac ('#' :: '#' :: ' ' :: '[' ::
      (v1 ++ '.' :: (v2 ++ '.' :: (v3 ++ ']' :: ' ' :: '-' :: ' ' ::
        (dy ++ '-' :: (dm ++ '-' :: (dd ++ rest))))))) =
      some (v1 ++ '.' :: v2 ++ '.' :: v3, dy ++ '-' :: dm ++ '-' :: dd, rest) := by
  have hdne : dy ≠ [] := by
    intro h
    rw [h] at h4
    exact absurd h4.1 (by decide)
  simp only [tryKac, headIs_cons_self, Option.some_bind,
    matchVer_append v1 v2 v3 ']' _ h1 h2 h3 (by decide),
    skipWs_cons_space, skipWs_not_ws '-' _ (by decide),
    skipWs_head_digit dy _ hdne h4.2,
    matchDate_append dy dm dd rest h4 hm hd, Option.map_some]
  rfl

theorem tryVerParen_heading (v1 v2 v3 dy dm dd rest : List Char)
    (h1 : digitRun v1) (h2 : digitRun v2) (h3 : digitRun v3)
    (h4 : digitRunN 4 dy) (hm : digitRunN 2 dm) (hd : digitRunN 2 dd) :
    tryVerParen (v1 ++ '.' :: (v2 ++ '.' :: (v3 ++ ' ' :: '(' ::
      (dy ++ '-' :: (dm ++ '-' :: (dd ++ ')' :: rest)))))) =
      some (v1 ++ '.' :: v2 ++ '.' :: v3, dy ++ '-' :: dm ++ '-' :: dd, rest) := by
  simp only [tryVerParen, matchVer_append v1 v2 v3 ' ' _ h1 h2 h3 (by decide),
    Option.some_bind, skipWs_cons_space, skipWs_not_ws '(' _ (by decide),
    headIs_cons_self, matchDate_append dy dm dd (')' :: rest) h4 hm hd,
    Option.map_some]
  rfl

theorem tryHeading_kac (v1 v2 v3 dy dm dd rest : List Char)
    (h1 : digitRun v1) (h2 : digitRun v2) (h3 : digitRun v3)
    (h4 : digitRunN 4 dy) (hm : digitRunN 2 dm) (hd : digitRunN 2 dd) :
    tryHeading ('#' :: '#' :: ' ' :: '[' ::
      (v1 ++ '.' :: (v2 ++ '.' :: (v3 ++ ']' :: ' ' :: '-' :: ' ' ::
        (dy ++ '-' :: (dm ++ '-' :: (dd ++ rest))))))) =
      some (v1 ++ '.' :: v2 ++ '.' :: v3, dy ++ '-' :: dm ++ '-' :: dd, rest) := by
  unfold tryHeading
  rw [tryKac_heading v1 v2 v3 dy dm dd rest h1 h2 h3 h4 hm hd]

theorem tryHeading_conv (v1 v2 v3 dy dm dd rest : List Char)
    (h1 : digitRun v1) (h2 : digitRun v2) (h3 : digitRun v3)
    (h4 : digitRunN 4 dy) (hm : digitRunN 2 dm) (hd : digitRunN 2 dd) :
    tryHeading ('#' :: '#' :: ' ' ::
      (v1 ++ '.' :: (v2 ++ '.' :: (v3 ++ ' ' :: '(' ::
        (dy ++ '-' :: (dm ++ '-' :: (dd ++ ')' :: rest))))))) =
      some (v1 ++ '.' :: v2 ++ '.' :: v3, dy ++ '-' :: dm ++ '-' :: dd, rest) := by
  obtain ⟨c, tl, hv1⟩ : ∃ c tl, v1 = c :: tl := by
    cases hv : v1 with
    | nil => exact absurd hv h1.1
    | cons c tl => exact ⟨c, tl, rfl⟩
  subst hv1
  have hcd : isDigitCh c = true := h1.2 c (List.mem_cons_self c tl)
  have hcne : c ≠ '[' := by
    intro he
    rw [he] at hcd
    exact absurd hcd (by decide)
  have hkac : tryKac ('#' :: '#' :: ' ' ::
      ((c :: tl) ++ '.' :: (v2 ++ '.' :: (v3 ++ ' ' :: '(' ::
        (dy ++ '-' :: (dm ++ '-' :: (dd ++ ')' :: rest))))))) = none := by
    simp [tryKac, headIs_cons_self, headIs, hcne]
  simp only [tryHeading, hkac, headIs_cons_self, Option.some_bind]
  exact tryVerParen_heading (c :: tl) v2 v3 dy dm dd rest h1 h2 h3 h4 hm hd

theorem tryHeading_dwsm (v1 v2 v3 dy dm dd rest : List Char)
    (h1 : digitRun v1) (h2 : digitRun v2) (h3 : digitRun v3)
    (h4 : digitRunN 4 dy) (hm : digitRunN 2 dm) (hd : digitRunN 2 dd) :
    tryHeading ('v' ::
      (v1 ++ '.' :: (v2 ++ '.' :: (v3 ++ ' ' :: '(' ::
        (dy ++ '-' :: (dm ++ '-' :: (dd ++ ')' :: rest))))))) =
      some (v1 ++ '.' :: v2 ++ '.' :: v3, dy ++ '-' :: dm ++ '-' :: dd, rest) := by
  have hkac : tryKac ('v' ::
      (v1 ++ '.' :: (v2 ++ '.' :: (v3 ++ ' ' :: '(' ::
        (dy ++ '-' :: (dm ++ '-' :: (dd ++ ')' :: rest))))))) = none := by
    simp [tryKac, headIs]
  simp only [tryHeading, hkac, headIs]
  simp only [reduceIte, Option.none_bind]
  exact tryVerParen_heading v1 v2 v3 dy dm dd rest h1 h2 h3 h4 hm hd

theorem tryHeading_none_head (c : Char) (rest : List Char) (h1 : c ≠ '#') (h2 : c ≠ 'v') :
    tryHeading (c :: rest) = none := by
  simp [tryHeading, tryKac, headIs, h1, h2]

theorem tryHeading_hash3 (rest : List Char) : tryHeading ('#' :: '#' :: '#' :: rest) = none := by
  simp [tryHeading, tryKac, headIs]

theorem tryHeading_nil : tryHeading [] = none := rfl

/-- The body lines of a formatted entry can never start a heading match:
they are empty, start with three hashes, or start with a character that
is neither a hash nor `v`. -/
theorem tryHeading_inert_line (l : List Char)
    (h : l = [] ∨ (∃ r, l = '#' :: '#' :: '#' :: r) ∨
      ∃ c r, l = c :: r ∧ c ≠ '#' ∧ c ≠ 'v') :
    (∀ rr, tryHeading (l ++ '\n' :: rr) = none) ∧ tryHeading l = none := by
  rcases h with rfl | ⟨r, rfl⟩ | ⟨c, r, rfl, hc1, hc2⟩
  · exact ⟨fun rr => tryHeading_none_head '\n' rr (by decide) (by decide), rfl⟩
  · constructor
    · intro rr
      show tryHeading ('#' :: '#' :: '#' :: (r ++ '\n' :: rr)) = none
      exact tryHeading_hash3 _
    · exact tryHeading_hash3 r
  · constructor
    · intro rr
      show tryHeading (c :: (r ++ '\n' :: rr)) = none
      exact tryHeading_none_head c _ hc1 hc2
    · exact tryHeading_none_head c r hc1 hc2

theorem nlSuffixes_no_newline (l : List Char) (h : '\n' ∉ l) : nlSuffixes l = [] := by
  induction l with
  | nil => rfl
  | cons c tl ih =>
    have hc : c ≠ '\n' := fun he => h (he ▸ List.mem_cons_self c tl)
    have htl : '\n' ∉ tl := fun hm => h (List.mem_cons_of_mem c hm)
    simp only [nlSuffixes, if_neg hc]
    exact ih htl

/-- Every line-start suffix of the joined body fails the heading attempt
when every body line is heading-inert. -/
theorem body_suffixes_fail : ∀ (L : List (List Char)),
    (∀ l ∈ L, '\n' ∉ l) →
    (∀ l ∈ L, (∀ rr, tryHeading (l ++ '\n' :: rr) = none) ∧ tryHeading l = none) →
    ∀ s ∈ lineSuffixes (joinNlSep L), tryHeading s = none := by
  intro L
  induction L with
  | nil =>
    intro _ _ s hs
    simp only [joinNlSep, lineSuffixes, nlSuffixes] at hs
    rw [List.mem_singleton] at hs
    subst hs
    rfl
  | cons l tl ih =>
    intro hnl hfail s hs
    cases tl with
    | nil =>
      simp only [joinNlSep, lineSuffixes] at hs
      rw [nlSuffixes_no_newline l (hnl l (List.mem_cons_self l []))] at hs
      rw [List.mem_singleton] at hs
      rw [hs]
      exact (hfail l (List.mem_cons_self l [])).2
    | cons l2 tl2 =>
      have hjoin : joinNlSep (l :: l2 :: tl2) = l ++ '\n' :: joinNlSep (l2 :: tl2) := rfl
      rw [hjoin] at hs
      unfold lineSuffixes at hs
      rw [nlSuffixes_append_line l _ (hnl l (List.mem_cons_self l _))] at hs
      rcases List.mem_cons.mp hs with rfl | hs2
      · exact (hfail l (List.mem_cons_self l _)).1 _
      · exact ih (fun x hx => hnl x (List.mem_cons_of_mem l hx))
          (fun x hx => hfail x (List.mem_cons_of_mem l hx)) s hs2

theorem collectHeadings_none (ss : List (List Char)) (allowed : Nat)
    (h : ∀ s ∈ ss, tryHeading s = none) : collectHeadings ss allowed = [] := by
  induction ss generalizing allowed with
  | nil => rfl
  | cons s tl ih =>
    have hs := h s (List.mem_cons_self s tl)
    have htl : ∀ x ∈ tl, tryHeading x = none := fun x hx => h x (List.mem_cons_of_mem s hx)
    unfold collectHeadings
    by_cases hlen : s.length > allowed
    · rw [if_pos hlen]
      exact ih allowed htl
    · rw [if_neg hlen, hs]
      exact ih allowed htl

theorem collectHeadings_cons_some (s : List Char) (ss : List (List Char)) (allowed : Nat)
    (hlen : ¬ s.length > allowed) (v d r : List Char) (h : tryHeading s = some (v, d, r)) :
    collectHeadings (s :: ss) allowed = (s, v, d) :: collectHeadings ss r.length := by
  conv_lhs => unfold collectHeadings
  rw [if_neg hlen, h]

/-- A document made of a heading line and an inert body parses into the
single entry built from the whole document. -/
theorem parseEntriesL_single (head : List Char) (body : List (List Char)) (v d r : List Char)
    (hh : '\n' ∉ head) (hb : ∀ l ∈ body, '\n' ∉ l)
    (hbody_ne : body ≠ [])
    (htry : tryHeading (head ++ '\n' :: joinNlSep body) = some (v, d, r))
    (hfail : ∀ l ∈ body,
      (∀ rr, tryHeading (l ++ '\n' :: rr) = none) ∧ tryHeading l = none) :
    parseEntriesL (head ++ '\n' :: joinNlSep body) =
      [mkEntry (head ++ '\n' :: joinNlSep body) v d] := by
  unfold parseEntriesL
  unfold lineSuffixes
  rw [nlSuffixes_append_line head _ hh,
    collectHeadings_cons_some _ _ _ (by omega) v d r htry,
    collectHeadings_none (joinNlSep body :: nlSuffixes (joinNlSep body)) r.length
      (body_suffixes_fail body hb hfail)]
  rfl

/-! Lemmas about trailing trimming and line joining for the round trip. -/

theorem dropWhile_append_of_ne_nil {p : Char → Bool} (l1 l2 : List Char)
    (h : l1.dropWhile p ≠ []) : (l1 ++ l2).dropWhile p = l1.dropWhile p ++ l2 := by
  induction l1 with
  | nil => exact absurd rfl h
  | cons c tl ih =>
    by_cases hc : p c
    · rw [List.cons_append, List.dropWhile_cons, if_pos hc, List.dropWhile_cons, if_pos hc]
      apply ih
      rw [List.dropWhile_cons, if_pos hc] at h
      exact h
    · rw [List.cons_append, List.dropWhile_cons, if_neg hc, List.dropWhile_cons, if_neg hc,
        List.cons_append]

theorem jsTrimEnd_append (X Y : List Char) (hY : jsTrimEnd Y ≠ []) :
    jsTrimEnd (X ++ Y) = X ++ jsTrimEnd Y := by
  unfold jsTrimEnd at *
  rw [List.reverse_append, dropWhile_append_of_ne_nil _ _ (by
    intro hc
    apply hY
    rw [hc]
    rfl), List.reverse_append, List.reverse_reverse]

theorem jsTrimEnd_snoc_ws (Z : List Char) (c : Char) (h : isJsWs c = true) :
    jsTrimEnd (Z ++ [c]) = jsTrimEnd Z := by
  unfold jsTrimEnd
  rw [List.reverse_append]
  simp [List.dropWhile_cons, h]

theorem jsTrimEnd_prefix (l : List Char) : jsTrimEnd l <+: l := by
  have h : l.reverse.dropWhile isJsWs <:+ l.reverse := List.dropWhile_suffix isJsWs
  have h2 : (l.reverse.dropWhile isJsWs).reverse.reverse <:+ l.reverse := by simpa using h
  exact List.reverse_suffix.mp h2

theorem jsTrim_eq_imp (s : List Char) (h : jsTrim s = s) : jsTrimEnd s = s := by
  have heq : jsTrimEnd (s.dropWhile isJsWs) = s := h
  have hpre := jsTrimEnd_prefix (s.dropWhile isJsWs)
  have hsuf : s.dropWhile isJsWs <:+ s := List.dropWhile_suffix isJsWs
  have h1 : (jsTrimEnd (s.dropWhile isJsWs)).length ≤ (s.dropWhile isJsWs).length :=
    hpre.sublist.length_le
  have h2 : (s.dropWhile isJsWs).length ≤ s.length := hsuf.sublist.length_le
  have h3 : (jsTrimEnd (s.dropWhile isJsWs)).length = s.length := by rw [heq]
  have hdrop : s.dropWhile isJsWs = s := hsuf.eq_of_length (by omega)
  rw [hdrop] at heq
  exact heq

theorem jsTrimEnd_of_ends_wf (W g : List Char) (hW : ∃ X, W = X ++ g)
    (hg : jsTrimEnd g = g) (hgne : g ≠ []) : jsTrimEnd (W ++ ['\n']) = W := by
  obtain ⟨X, rfl⟩ := hW
  rw [List.append_assoc,
    jsTrimEnd_append X (g ++ ['\n']) (by
      rw [jsTrimEnd_snoc_ws g '\n' (by decide), hg]
      exact hgne),
    jsTrimEnd_snoc_ws g '\n' (by decide), hg]

theorem joinNlSep_append_last (L : List (List Char)) (l : List Char) (h : L ≠ []) :
    joinNlSep (L ++ [l]) = joinNlSep L ++ '\n' :: l := by
  induction L with
  | nil => exact absurd rfl h
  | cons x tl ih =>
    cases tl with
    | nil => rfl
    | cons y tl2 =>
      have : joinNlSep ((x :: y :: tl2) ++ [l]) =
          x ++ '\n' :: joinNlSep ((y :: tl2) ++ [l]) := rfl
      rw [this, ih (by simp)]
      show x ++ '\n' :: (joinNlSep (y :: tl2) ++ '\n' :: l) =
        (x ++ '\n' :: joinNlSep (y :: tl2)) ++ '\n' :: l
      simp [List.append_assoc]

theorem chSplit_joinNlSep : ∀ (L : List (List Char)), (∀ l ∈ L, '\n' ∉ l) → L ≠ [] →
    chSplit '\n' (joinNlSep L) = L := by
  intro L
  induction L with
  | nil => exact fun _ h => absurd rfl h
  | cons l tl ih =>
    intro hnl _
    cases tl with
    | nil =>
      show chSplit '\n' l = [l]
      exact chSplit_no_sep '\n' l (hnl l (List.mem_cons_self l []))
    | cons l2 tl2 =>
      show chSplit '\n' (l ++ '\n' :: joinNlSep (l2 :: tl2)) = l :: l2 :: tl2
      rw [chSplit_append_sep '\n' l _ (hnl l (List.mem_cons_self l _)),
        ih (fun x hx => hnl x (List.mem_cons_of_mem l hx)) (by simp)]

theorem wfField_ne_nil (s : String) (h : wfField s) : s.data ≠ [] := h.1

theorem wfField_trimEnd (s : String) (h : wfField s) : jsTrimEnd s.data = s.data :=
  jsTrim_eq_imp s.data h.2.1

theorem wfField_no_nl (s : String) (h : wfField s) : '\n' ∉ s.data := by
  intro hmem
  have := h.2.2 '\n' hmem
  exact absurd this (by decide)

/-! Lemmas about the category extraction loop for the round trip. -/

theorem catLineRest?_nil : catLineRest? [] = none := rfl

theorem catLineRest?_none_head (c : Char) (rest : List Char) (h : c ≠ '#') :
    catLineRest? (c :: rest) = none := by
  simp [catLineRest?, headIs, h]

theorem catLineRest?_hash2 (c : Char) (rest : List Char) (h : c ≠ '#') :
    catLineRest? ('#' :: '#' :: c :: rest) = none := by
  simp [catLineRest?, headIs, h]

theorem catLineRest?_success (cat : List Char) (hne : cat ≠ [])
    (hterm : ∀ c ∈ cat, isLineTerm c = false) :
    catLineRest? ('#' :: '#' :: '#' :: ' ' :: cat) = some cat := by
  simp only [catLineRest?, headIs_cons_self, Option.some_bind]
  rw [if_pos ⟨hne, hterm⟩]

theorem itemLineRest?_nil : itemLineRest? [] = none := rfl

theorem itemLineRest?_none_head (c : Char) (rest : List Char)
    (h1 : c ≠ '-') (h2 : c ≠ '*') : itemLineRest? (c :: rest) = none := by
  simp [itemLineRest?, h1, h2]

theorem itemLineRest?_success (bullet : Char) (rest : List Char)
    (hb : bullet = '-' ∨ bullet = '*') (hne : rest ≠ [])
    (hterm : ∀ c ∈ rest, isLineTerm c = false) :
    itemLineRest? (bullet :: ' ' :: rest) = some rest := by
  simp only [itemLineRest?, if_pos hb, headIs_cons_self, Option.some_bind]
  rw [if_pos ⟨hne, hterm⟩]

theorem catLoop_cons_skip (l : List Char) (ls : List (List Char))
    (cur : Option (List Char)) (cats : List (List Char × List (List Char)))
    (h1 : catLineRest? l = none) (h2 : itemLineRest? l = none) :
    catLoop (l :: ls) cur cats = catLoop ls cur cats := by
  conv_lhs => unfold catLoop
  rw [h1, h2]

theorem catLoop_cons_catLine (l : List Char) (ls : List (List Char))
    (cur : Option (List Char)) (cats : List (List Char × List (List Char)))
    (rest : List Char) (h : catLineRest? l = some rest) :
    catLoop (l :: ls) cur cats = catLoop ls (some (jsTrim rest))
      (if hasKey cats (jsTrim rest) then cats else cats ++ [(jsTrim rest, [])]) := by
  conv_lhs => unfold catLoop
  rw [h]

theorem catLoop_cons_item (l : List Char) (ls : List (List Char))
    (name : List Char) (cats : List (List Char × List (List Char)))
    (rest : List Char) (hc : catLineRest? l = none) (h : itemLineRest? l = some rest) :
    catLoop (l :: ls) (some name) cats =
      catLoop ls (some name) (pushItem cats name (jsTrim rest)) := by
  conv_lhs => unfold catLoop
  rw [hc, h]

theorem catLoop_append_inert (ls more : List (List Char))
    (cur : Option (List Char)) (cats : List (List Char × List (List Char)))
    (h : ∀ l ∈ ls, catLineRest? l = none ∧ itemLineRest? l = none) :
    catLoop (ls ++ more) cur cats = catLoop more cur cats := by
  induction ls with
  | nil => rfl
  | cons l tl ih =>
    have hl := h l (List.mem_cons_self l tl)
    rw [List.cons_append, catLoop_cons_skip l _ cur cats hl.1 hl.2]
    exact ih (fun x hx => h x (List.mem_cons_of_mem l hx))

/-- A run of item lines under the current category appends the items in
order to the list stored at that key. -/
theorem catLoop_item_run (bullet : Char) (hb : bullet = '-' ∨ bullet = '*') :
    ∀ (xs : List String) (name : List Char) (cats : List (List Char × List (List Char))),
    (∀ x ∈ xs, wfField x) →
    catLoop (xs.map (fun x => bullet :: ' ' :: x.data)) (some name) cats =
      xs.foldl (fun acc x => pushItem acc name x.data) cats := by
  intro xs
  induction xs with
  | nil =>
    intro name cats _
    rfl
  | cons x tl ih =>
    intro name cats hwf
    have hx := hwf x (List.mem_cons_self x tl)
    rw [List.map_cons,
      catLoop_cons_item _ _ name cats x.data
        (catLineRest?_none_head bullet _ (by rcases hb with rfl | rfl <;> decide))
        (itemLineRest?_success bullet x.data hb hx.1 hx.2.2),
      show jsTrim x.data = x.data from hx.2.1,
      ih name _ (fun y hy => hwf y (List.mem_cons_of_mem x hy))]
    rfl

/-- Folding the push over a two-key map with distinct keys extends the
second list. -/
theorem foldl_pushItem_two (catK filesK : List Char) (la : List (List Char))
    (hne : catK ≠ filesK) :
    ∀ (xs : List String) (lk : List (List Char)),
    xs.foldl (fun acc x => pushItem acc filesK x.data) [(catK, la), (filesK, lk)] =
      [(catK, la), (filesK, lk ++ xs.map String.data)] := by
  intro xs
  induction xs with
  | nil =>
    intro lk
    simp
  | cons x tl ih =>
    intro lk
    rw [List.foldl_cons, show pushItem [(catK, la), (filesK, lk)] filesK x.data =
      [(catK, la), (filesK, lk ++ [x.data])] from by simp [pushItem, hne], ih]
    simp

theorem not_mem_append {c : Char} {a b : List Char} (ha : c ∉ a) (hb : c ∉ b) :
    c ∉ a ++ b := by
  intro h
  rcases List.mem_append.mp h with h1 | h2
  · exact ha h1
  · exact hb h2

theorem not_mem_cons {c d : Char} {l : List Char} (h1 : c ≠ d) (h2 : c ∉ l) :
    c ∉ d :: l := by
  intro h
  rcases List.mem_cons.mp h with rfl | hm
  · exact h1 rfl
  · exact h2 hm

theorem no_nl_of_digits {xs : List Char} (h : ∀ c ∈ xs, isDigitCh c = true) :
    '\n' ∉ xs := by
  intro hm
  exact absurd (h _ hm) (by decide)

theorem no_nl_version (v1 v2 v3 : List Char)
    (h1 : digitRun v1) (h2 : digitRun v2) (h3 : digitRun v3) :
    '\n' ∉ v1 ++ '.' :: v2 ++ '.' :: v3 := by
  refine not_mem_append (not_mem_append (no_nl_of_digits h1.2)
    (not_mem_cons ?_ (no_nl_of_digits h2.2)))
    (not_mem_cons ?_ (no_nl_of_digits h3.2))
  · decide
  · decide

theorem no_nl_date (dy dm dd : List Char)
    (h4 : digitRunN 4 dy) (hm : digitRunN 2 dm) (hd : digitRunN 2 dd) :
    '\n' ∉ dy ++ '-' :: dm ++ '-' :: dd := by
  refine not_mem_append (not_mem_append (no_nl_of_digits h4.2)
    (not_mem_cons ?_ (no_nl_of_digits hm.2)))
    (not_mem_cons ?_ (no_nl_of_digits hd.2))
  · decide
  · decide

/-- Trimming the trailing newline of a formatted entry whose last real
line ends in a well-formed field recovers exactly the joined real lines. -/
theorem trimEnd_formatted (realFront : List (List Char)) (Z : List Char) (g : String)
    (hg : wfField g) :
    jsTrimEnd (joinNlSep ((realFront ++ [Z ++ g.data]) ++ [[]])) =
      joinNlSep (realFront ++ [Z ++ g.data]) := by
  rw [joinNlSep_append_last _ [] (by simp)]
  apply jsTrimEnd_of_ends_wf _ g.data _ (wfField_trimEnd g hg) (wfField_ne_nil g hg)
  cases realFront with
  | nil => exact ⟨Z, rfl⟩
  | cons f tl =>
    refine ⟨joinNlSep (f :: tl) ++ '\n' :: Z, ?_⟩
    rw [joinNlSep_append_last (f :: tl) _ (by simp)]
    simp

/-- The category loop on a no-files entry body: one category line, one
item line, everything else inert. -/
theorem catLoop_nofiles (head : List Char) (mid2 det : List (List Char))
    (bullet : Char) (cat desc : String)
    (hh1 : catLineRest? head = none) (hh2 : itemLineRest? head = none)
    (hmid : ∀ l ∈ mid2, catLineRest? l = none ∧ itemLineRest? l = none)
    (hdet : ∀ l ∈ det, catLineRest? l = none ∧ itemLineRest? l = none)
    (hb : bullet = '-' ∨ bullet = '*')
    (hcat : wfField cat) (hdesc : wfField desc) :
    catLoop (head :: [] :: ("### ".data ++ cat.data) ::
      (mid2 ++ (bullet :: ' ' :: desc.data) :: det)) none [] =
      [(cat.data, [desc.data])] := by
  rw [catLoop_cons_skip head _ none [] hh1 hh2,
    catLoop_cons_skip [] _ none [] catLineRest?_nil itemLineRest?_nil,
    show ("### " : String).data ++ cat.data = '#' :: '#' :: '#' :: ' ' :: cat.data from rfl,
    catLoop_cons_catLine _ _ none [] cat.data
      (catLineRest?_success cat.data hcat.1 hcat.2.2),
    show jsTrim cat.data = cat.data from hcat.2.1,
    show (if hasKey [] cat.data then ([] : List (List Char × List (List Char)))
      else [] ++ [(cat.data, [])]) = [(cat.data, [])] from by simp [hasKey],
    catLoop_append_inert mid2 _ _ _ hmid,
    catLoop_cons_item _ _ cat.data _ desc.data
      (catLineRest?_none_head bullet _ (by rcases hb with rfl | rfl <;> decide))
      (itemLineRest?_success bullet desc.data hb hdesc.1 hdesc.2.2),
    show jsTrim desc.data = desc.data from hdesc.2.1,
    show pushItem [(cat.data, [])] cat.data desc.data = [(cat.data, [desc.data])] from by
      simp [pushItem]]
  rw [show det = det ++ [] from by simp, catLoop_append_inert det [] _ _ hdet]
  rfl

/-- The category loop on a Keep a Changelog entry body with files: the
category and its item, then the synthetic `Files` category with one item
per file. -/
theorem catLoop_kac_files (head : List Char) (det : List (List Char))
    (cat desc : String) (files : List String)
    (hh1 : catLineRest? head = none) (hh2 : itemLineRest? head = none)
    (hdet : ∀ l ∈ det, catLineRest? l = none ∧ itemLineRest? l = none)
    (hcat : wfField cat) (hdesc : wfField desc)
    (hfwf : ∀ f ∈ files, wfField f)
    (hne : cat.data ≠ ("Files" : String).data) :
    catLoop (head :: [] :: ("### ".data ++ cat.data) :: ('-' :: ' ' :: desc.data) ::
      (det ++ [] :: ("### Files" : String).data ::
        files.map (fun f => '-' :: ' ' :: f.data))) none [] =
      [(cat.data, [desc.data]), (("Files" : String).data, files.map String.data)] := by
  rw [catLoop_cons_skip head _ none [] hh1 hh2,
    catLoop_cons_skip [] _ none [] catLineRest?_nil itemLineRest?_nil,
    show ("### " : String).data ++ cat.data = '#' :: '#' :: '#' :: ' ' :: cat.data from rfl,
    catLoop_cons_catLine _ _ none [] cat.data
      (catLineRest?_success cat.data hcat.1 hcat.2.2),
    show jsTrim cat.data = cat.data from hcat.2.1,
    show (if hasKey [] cat.data then ([] : List (List Char × List (List Char)))
      else [] ++ [(cat.data, [])]) = [(cat.data, [])] from by simp [hasKey],
    catLoop_cons_item _ _ cat.data _ desc.data
      (catLineRest?_none_head '-' _ (by decide))
      (itemLineRest?_success '-' desc.data (Or.inl rfl) hdesc.1 hdesc.2.2),
    show jsTrim desc.data = desc.data from hdesc.2.1,
    show pushItem [(cat.data, [])] cat.data desc.data = [(cat.data, [desc.data])] from by
      simp [pushItem],
    catLoop_append_inert det _ _ _ hdet,
    catLoop_cons_skip [] _ _ _ catLineRest?_nil itemLineRest?_nil,
    show ("### Files" : String).data =
      '#' :: '#' :: '#' :: ' ' :: ("Files" : String).data from rfl,
    catLoop_cons_catLine _ _ _ _ ("Files" : String).data
      (catLineRest?_success ("Files" : String).data (by decide) (by decide)),
    show jsTrim ("Files" : String).data = ("Files" : String).data from by decide,
    show (if hasKey [(cat.data, [desc.data])] ("Files" : String).data
      then [(cat.data, [desc.data])]
      else [(cat.data, [desc.data])] ++ [(("Files" : String).data, [])]) =
      [(cat.data, [desc.data]), (("Files" : String).data, [])] from by
        simp [hasKey, hne],
    catLoop_item_run '-' (Or.inl rfl) files ("Files" : String).data _ hfwf,
    foldl_pushItem_two cat.data ("Files" : String).data [desc.data] hne files []]
  simp

/-- Round trip of a no-files entry through the Keep a Changelog formatter:
format, then parse, recovers version, date and the category map. -/
theorem roundtrip_kac_nofiles (p : FormatEntryParams)
    (v1 v2 v3 dy dm dd : List Char)
    (hv : p.version.data = v1 ++ '.' :: v2 ++ '.' :: v3)
    (h1 : digitRun v1) (h2 : digitRun v2) (h3 : digitRun v3)
    (hdt : p.date.data = dy ++ '-' :: dm ++ '-' :: dd)
    (h4 : digitRunN 4 dy) (hm : digitRunN 2 dm) (hd : digitRunN 2 dd)
    (hcat : wfField p.category) (hdesc : wfField p.description)
    (hdet : ∀ x ∈ p.details, wfField x)
    (hfe : p.files = []) :
    (parseEntries (formatEntry Dialect.keepAChangelog p)).map
      (fun e => (e.version, e.date, e.categories)) =
      [(p.version, p.date, [(p.category, [p.description])])] := by
  have hlines : kacLines p =
      ("## [".data ++ p.version.data ++ "] - ".data ++ p.date.data) :: [] ::
      ("### ".data ++ p.category.data) :: ("- ".data ++ p.description.data) ::
      (p.details.map (fun d => "  - ".data ++ d.data) ++ [[]]) := by
    unfold kacLines
    rw [hfe]
    simp
  have hstart : parseEntries (formatEntry Dialect.keepAChangelog p) =
      parseEntriesL (joinNlSep (kacLines p)) := rfl
  rw [hstart, hlines,
    show joinNlSep (("## [".data ++ p.version.data ++ "] - ".data ++ p.date.data) :: [] ::
      ("### ".data ++ p.category.data) :: ("- ".data ++ p.description.data) ::
      (p.details.map (fun d => "  - ".data ++ d.data) ++ [[]])) =
      ("## [".data ++ p.version.data ++ "] - ".data ++ p.date.data) ++ '\n' ::
        joinNlSep ([] :: ("### ".data ++ p.category.data) ::
          ("- ".data ++ p.description.data) ::
          (p.details.map (fun d => "  - ".data ++ d.data) ++ [[]])) from rfl]
  have hh : '\n' ∉ "## [".data ++ p.version.data ++ "] - ".data ++ p.date.data := by
    rw [hv, hdt]
    refine not_mem_append (not_mem_append (not_mem_append ?_
      (no_nl_version v1 v2 v3 h1 h2 h3)) ?_) (no_nl_date dy dm dd h4 hm hd)
    · decide
    · decide
  have hb : ∀ l ∈ ([] : List Char) :: ("### ".data ++ p.category.data) ::
      ("- ".data ++ p.description.data) ::
      (p.details.map (fun d => "  - ".data ++ d.data) ++ [[]]), '\n' ∉ l := by
    intro l hl
    rcases List.mem_cons.mp hl with rfl | hl
    · exact List.not_mem_nil _
    rcases List.mem_cons.mp hl with rfl | hl
    · exact not_mem_append (by decide) (wfField_no_nl _ hcat)
    rcases List.mem_cons.mp hl with rfl | hl
    · exact not_mem_append (by decide) (wfField_no_nl _ hdesc)
    rcases List.mem_append.mp hl with hl | hl
    · obtain ⟨x, hx, rfl⟩ := List.mem_map.mp hl
      exact not_mem_append (by decide) (wfField_no_nl _ (hdet x hx))
    · rw [List.mem_singleton] at hl
      subst hl
      exact List.not_mem_nil _
  have hfail : ∀ l ∈ ([] : List Char) :: ("### ".data ++ p.category.data) ::
      ("- ".data ++ p.description.data) ::
      (p.details.map (fun d => "  - ".data ++ d.data) ++ [[]]),
      (∀ rr, tryHeading (l ++ '\n' :: rr) = none) ∧ tryHeading l = none := by
    intro l hl
    apply tryHeading_inert_line
    rcases List.mem_cons.mp hl with rfl | hl
    · exact Or.inl rfl
    rcases List.mem_cons.mp hl with rfl | hl
    · exact Or.inr (Or.inl ⟨' ' :: p.category.data, rfl⟩)
    rcases List.mem_cons.mp hl with rfl | hl
    · exact Or.inr (Or.inr ⟨'-', ' ' :: p.description.data, rfl, by decide, by decide⟩)
    rcases List.mem_append.mp hl with hl | hl
    · obtain ⟨x, hx, rfl⟩ := List.mem_map.mp hl
      exact Or.inr (Or.inr ⟨' ', ' ' :: '-' :: ' ' :: x.data, rfl, by decide, by decide⟩)
    · rw [List.mem_singleton] at hl
      subst hl
      exact Or.inl rfl
  have htry : tryHeading (("## [".data ++ p.version.data ++ "] - ".data ++ p.date.data) ++
      '\n' :: joinNlSep ([] :: ("### ".data ++ p.category.data) ::
        ("- ".data ++ p.description.data) ::
        (p.details.map (fun d => "  - ".data ++ d.data) ++ [[]]))) =
      some (v1 ++ '.' :: v2 ++ '.' :: v3, dy ++ '-' :: dm ++ '-' :: dd,
        '\n' :: joinNlSep ([] :: ("### ".data ++ p.category.data) ::
          ("- ".data ++ p.description.data) ::
          (p.details.map (fun d => "  - ".data ++ d.data) ++ [[]]))) := by
    rw [show ("## [".data ++ p.version.data ++ "] - ".data ++ p.date.data) ++
        '\n' :: joinNlSep ([] :: ("### ".data ++ p.category.data) ::
          ("- ".data ++ p.description.data) ::
          (p.details.map (fun d => "  - ".data ++ d.data) ++ [[]])) =
        '#' :: '#' :: ' ' :: '[' :: (v1 ++ '.' :: (v2 ++ '.' :: (v3 ++ ']' :: ' ' :: '-' :: ' ' ::
          (dy ++ '-' :: (dm ++ '-' :: (dd ++ '\n' ::
            joinNlSep ([] :: ("### ".data ++ p.category.data) ::
              ("- ".data ++ p.description.data) ::
              (p.details.map (fun d => "  - ".data ++ d.data) ++ [[]])))))))) from by
      rw [hv, hdt]
      simp only [show ("## [" : String).data = ['#', '#', ' ', '['] from rfl,
        show ("] - " : String).data = [']', ' ', '-', ' '] from rfl,
        List.cons_append, List.nil_append, List.append_assoc]]
    exact tryHeading_kac v1 v2 v3 dy dm dd _ h1 h2 h3 h4 hm hd
  rw [parseEntriesL_single _ _ _ _ _ hh hb (by simp) htry hfail]
  have hcats : parseCategoriesFromBlock (jsTrimEnd
      (("## [".data ++ p.version.data ++ "] - ".data ++ p.date.data) ++
        '\n' :: joinNlSep ([] :: ("### ".data ++ p.category.data) ::
          ("- ".data ++ p.description.data) ::
          (p.details.map (fun d => "  - ".data ++ d.data) ++ [[]])))) =
      [(p.category, [p.description])] := by
    rcases List.eq_nil_or_concat p.details with hdnil | ⟨L, b, hdC⟩
    · have hsplit : ("## [".data ++ p.version.data ++ "] - ".data ++ p.date.data) :: [] ::
          ("### ".data ++ p.category.data) :: ("- ".data ++ p.description.data) ::
          (p.details.map (fun d => "  - ".data ++ d.data) ++ [[]]) =
          (([("## [".data ++ p.version.data ++ "] - ".data ++ p.date.data), [],
            ("### ".data ++ p.category.data)] : List (List Char)) ++
            ["- ".data ++ p.description.data]) ++ [[]] := by
        rw [hdnil]
        simp
      rw [show (("## [".data ++ p.version.data ++ "] - ".data ++ p.date.data) ++
          '\n' :: joinNlSep ([] :: ("### ".data ++ p.category.data) ::
            ("- ".data ++ p.description.data) ::
            (p.details.map (fun d => "  - ".data ++ d.data) ++ [[]]))) =
          joinNlSep (("## [".data ++ p.version.data ++ "] - ".data ++ p.date.data) :: [] ::
            ("### ".data ++ p.category.data) :: ("- ".data ++ p.description.data) ::
            (p.details.map (fun d => "  - ".data ++ d.data) ++ [[]])) from rfl,
        hsplit, trimEnd_formatted _ "- ".data p.description hdesc]
      unfold parseCategoriesFromBlock
      rw [chSplit_joinNlSep _ (by
          intro l hl
          simp only [List.mem_append, List.mem_cons, List.not_mem_nil, or_false,
            List.mem_singleton] at hl
          rcases hl with (rfl | rfl | rfl) | rfl
          · exact hh
          · exact List.not_mem_nil _
          · exact hb _ (by simp)
          · exact hb _ (by simp)) (by simp),
        show (([("## [".data ++ p.version.data ++ "] - ".data ++ p.date.data), [],
            ("### ".data ++ p.category.data)] : List (List Char)) ++
            ["- ".data ++ p.description.data]) =
          ("## [".data ++ p.version.data ++ "] - ".data ++ p.date.data) :: [] ::
            ("### ".data ++ p.category.data) ::
            (([] : List (List Char)) ++ ('-' :: ' ' :: p.description.data) :: []) from by
          simp [show ("- " : String).data = ['-', ' '] from rfl],
        catLoop_nofiles ("## [".data ++ p.version.data ++ "] - ".data ++ p.date.data)
          [] [] '-' p.category p.description
          (catLineRest?_hash2 ' ' _ (by decide))
          (itemLineRest?_none_head '#' _ (by decide) (by decide))
          (fun l hl => absurd hl (List.not_mem_nil _))
          (fun l hl => absurd hl (List.not_mem_nil _))
          (Or.inl rfl) hcat hdesc]
      rfl
    · have hbmem : b ∈ p.details := by
        rw [hdC]
        simp
      have hLsub : ∀ x ∈ L, x ∈ p.details := by
        intro x hx
        rw [hdC, List.concat_eq_append]
        exact List.mem_append_left _ hx
      have hsplit : ("## [".data ++ p.version.data ++ "] - ".data ++ p.date.data) :: [] ::
          ("### ".data ++ p.category.data) :: ("- ".data ++ p.description.data) ::
          (p.details.map (fun d => "  - ".data ++ d.data) ++ [[]]) =
          (([("## [".data ++ p.version.data ++ "] - ".data ++ p.date.data), [],
            ("### ".data ++ p.category.data), ("- ".data ++ p.description.data)] :
              List (List Char)) ++
            L.map (fun d => "  - ".data ++ d.data) ++ ["  - ".data ++ b.data]) ++ [[]] := by
        rw [hdC]
        simp
      rw [show (("## [".data ++ p.version.data ++ "] - ".data ++ p.date.data) ++
          '\n' :: joinNlSep ([] :: ("### ".data ++ p.category.data) ::
            ("- ".data ++ p.description.data) ::
            (p.details.map (fun d => "  - ".data ++ d.data) ++ [[]]))) =
          joinNlSep (("## [".data ++ p.version.data ++ "] - ".data ++ p.date.data) :: [] ::
            ("### ".data ++ p.category.data) :: ("- ".data ++ p.description.data) ::
            (p.details.map (fun d => "  - ".data ++ d.data) ++ [[]])) from rfl,
        hsplit, trimEnd_formatted _ "  - ".data b (hdet b hbmem)]
      unfold parseCategoriesFromBlock
      rw [chSplit_joinNlSep _ (by
          intro l hl
          simp only [List.mem_append, List.mem_cons, List.not_mem_nil, or_false,
            List.mem_singleton] at hl
          rcases hl with ((rfl | rfl | rfl | rfl) | hl) | rfl
          · exact hh
          · exact List.not_mem_nil _
          · exact hb _ (by simp)
          · exact hb _ (by simp)
          · obtain ⟨x, hx, rfl⟩ := List.mem_map.mp hl
            exact not_mem_append (by decide) (wfField_no_nl _ (hdet x (hLsub x hx)))
          · exact not_mem_append (by decide) (wfField_no_nl _ (hdet b hbmem))) (by simp),
        show ((([("## [".data ++ p.version.data ++ "] - ".data ++ p.date.data), [],
            ("### ".data ++ p.category.data), ("- ".data ++ p.description.data)] :
              List (List Char)) ++
            L.map (fun d => "  - ".data ++ d.data) ++ ["  - ".data ++ b.data])) =
          ("## [".data ++ p.version.data ++ "] - ".data ++ p.date.data) :: [] ::
            ("### ".data ++ p.category.data) ::
            (([] : List (List Char)) ++ ('-' :: ' ' :: p.description.data) ::
              (L.map (fun d => "  - ".data ++ d.data) ++ ["  - ".data ++ b.data])) from by
          simp [show ("- " : String).data = ['-', ' '] from rfl],
        catLoop_nofiles ("## [".data ++ p.version.data ++ "] - ".data ++ p.date.data) []
          (L.map (fun d => "  - ".data ++ d.data) ++ ["  - ".data ++ b.data]) '-'
          p.category p.description
          (catLineRest?_hash2 ' ' _ (by decide))
          (itemLineRest?_none_head '#' _ (by decide) (by decide))
          (fun l hl => absurd hl (List.not_mem_nil _))
          (by
            intro l hl
            rcases List.mem_append.mp hl with hl | hl
            · obtain ⟨x, hx, rfl⟩ := List.mem_map.mp hl
              exact ⟨catLineRest?_none_head ' ' _ (by decide),
                itemLineRest?_none_head ' ' _ (by decide) (by decide)⟩
            · rw [List.mem_singleton] at hl
              subst hl
              exact ⟨catLineRest?_none_head ' ' _ (by decide),
                itemLineRest?_none_head ' ' _ (by decide) (by decide)⟩)
          (Or.inl rfl) hcat hdesc]
      rfl
  simp only [List.map_cons, List.map_nil, mkEntry]
  rw [hcats, ← hv, ← hdt]

/-- Round trip of a no-files entry through the conventional formatter. -/
theorem roundtrip_conv_nofiles (p : FormatEntryParams)
    (v1 v2 v3 dy dm dd : List Char)
    (hv : p.version.data = v1 ++ '.' :: v2 ++ '.' :: v3)
    (h1 : digitRun v1) (h2 : digitRun v2) (h3 : digitRun v3)
    (hdt : p.date.data = dy ++ '-' :: dm ++ '-' :: dd)
    (h4 : digitRunN 4 dy) (hm : digitRunN 2 dm) (hd : digitRunN 2 dd)
    (hcat : wfField p.category) (hdesc : wfField p.description)
    (hdet : ∀ x ∈ p.details, wfField x)
    (hfe : p.files = []) :
    (parseEntries (formatEntry Dialect.conventional p)).map
      (fun e => (e.version, e.date, e.categories)) =
      [(p.version, p.date, [(p.category, [p.description])])] := by
  have hlines : convLines p =
      ("## ".data ++ p.version.data ++ " (".data ++ p.date.data ++ ")".data) :: [] ::
      ("### ".data ++ p.category.data) :: [] :: ("* ".data ++ p.description.data) ::
      (p.details.map (fun d => "  * ".data ++ d.data) ++ [[]]) := by
    unfold convLines
    rw [hfe]
    simp
  have hstart : parseEntries (formatEntry Dialect.conventional p) =
      parseEntriesL (joinNlSep (convLines p)) := rfl
  rw [hstart, hlines,
    show joinNlSep (("## ".data ++ p.version.data ++ " (".data ++ p.date.data ++ ")".data) ::
      [] :: ("### ".data ++ p.category.data) :: [] :: ("* ".data ++ p.description.data) ::
      (p.details.map (fun d => "  * ".data ++ d.data) ++ [[]])) =
      ("## ".data ++ p.version.data ++ " (".data ++ p.date.data ++ ")".data) ++ '\n' ::
        joinNlSep ([] :: ("### ".data ++ p.category.data) :: [] ::
          ("* ".data ++ p.description.data) ::
          (p.details.map (fun d => "  * ".data ++ d.data) ++ [[]])) from rfl]
  have hh : '\n' ∉ "## ".data ++ p.version.data ++ " (".data ++ p.date.data ++ ")".data := by
    rw [hv, hdt]
    refine not_mem_append (not_mem_append (not_mem_append (not_mem_append ?_
      (no_nl_version v1 v2 v3 h1 h2 h3)) ?_) (no_nl_date dy dm dd h4 hm hd)) ?_
    · decide
    · decide
    · decide
  have hb : ∀ l ∈ ([] : List Char) :: ("### ".data ++ p.category.data) :: ([] : List Char) ::
      ("* ".data ++ p.description.data) ::
      (p.details.map (fun d => "  * ".data ++ d.data) ++ [[]]), '\n' ∉ l := by
    intro l hl
    rcases List.mem_cons.mp hl with rfl | hl
    · exact List.not_mem_nil _
    rcases List.mem_cons.mp hl with rfl | hl
    · exact not_mem_append (by decide) (wfField_no_nl _ hcat)
    rcases List.mem_cons.mp hl with rfl | hl
    · exact List.not_mem_nil _
    rcases List.mem_cons.mp hl with rfl | hl
    · exact not_mem_append (by decide) (wfField_no_nl _ hdesc)
    rcases List.mem_append.mp hl with hl | hl
    · obtain ⟨x, hx, rfl⟩ := List.mem_map.mp hl
      exact not_mem_append (by decide) (wfField_no_nl _ (hdet x hx))
    · rw [List.mem_singleton] at hl
      subst hl
      exact List.not_mem_nil _
  have hfail : ∀ l ∈ ([] : List Char) :: ("### ".data ++ p.category.data) :: ([] : List Char) ::
      ("* ".data ++ p.description.data) ::
      (p.details.map (fun d => "  * ".data ++ d.data) ++ [[]]),
      (∀ rr, tryHeading (l ++ '\n' :: rr) = none) ∧ tryHeading l = none := by
    intro l hl
    apply tryHeading_inert_line
    rcases List.mem_cons.mp hl with rfl | hl
    · exact Or.inl rfl
    rcases List.mem_cons.mp hl with rfl | hl
    · exact Or.inr (Or.inl ⟨' ' :: p.category.data, rfl⟩)
    rcases List.mem_cons.mp hl with rfl | hl
    · exact Or.inl rfl
    rcases List.mem_cons.mp hl with rfl | hl
    · exact Or.inr (Or.inr ⟨'*', ' ' :: p.description.data, rfl, by decide, by decide⟩)
    rcases List.mem_append.mp hl with hl | hl
    · obtain ⟨x, hx, rfl⟩ := List.mem_map.mp hl
      exact Or.inr (Or.inr ⟨' ', ' ' :: '*' :: ' ' :: x.data, rfl, by decide, by decide⟩)
    · rw [List.mem_singleton] at hl
      subst hl
      exact Or.inl rfl
  have htry : tryHeading (("## ".data ++ p.version.data ++ " (".data ++ p.date.data ++
      ")".data) ++ '\n' :: joinNlSep ([] :: ("### ".data ++ p.category.data) :: [] ::
        ("* ".data ++ p.description.data) ::
        (p.details.map (fun d => "  * ".data ++ d.data) ++ [[]]))) =
      some (v1 ++ '.' :: v2 ++ '.' :: v3, dy ++ '-' :: dm ++ '-' :: dd,
        '\n' :: joinNlSep ([] :: ("### ".data ++ p.category.data) :: [] ::
          ("* ".data ++ p.description.data) ::
          (p.details.map (fun d => "  * ".data ++ d.data) ++ [[]]))) := by
    rw [show ("## ".data ++ p.version.data ++ " (".data ++ p.date.data ++ ")".data) ++
        '\n' :: joinNlSep ([] :: ("### ".data ++ p.category.data) :: [] ::
          ("* ".data ++ p.description.data) ::
          (p.details.map (fun d => "  * ".data ++ d.data) ++ [[]])) =
        '#' :: '#' :: ' ' :: (v1 ++ '.' :: (v2 ++ '.' :: (v3 ++ ' ' :: '(' ::
          (dy ++ '-' :: (dm ++ '-' :: (dd ++ ')' :: '\n' ::
            joinNlSep ([] :: ("### ".data ++ p.category.data) :: [] ::
              ("* ".data ++ p.description.data) ::
              (p.details.map (fun d => "  * ".data ++ d.data) ++ [[]])))))))) from by
      rw [hv, hdt]
      simp only [show ("## " : String).data = ['#', '#', ' '] from rfl,
        show (" (" : String).data = [' ', '('] from rfl,
        show (")" : String).data = [')'] from rfl,
        List.cons_append, List.nil_append, List.append_assoc]]
    exact tryHeading_conv v1 v2 v3 dy dm dd _ h1 h2 h3 h4 hm hd
  rw [parseEntriesL_single _ _ _ _ _ hh hb (by simp) htry hfail]
  have hcats : parseCategoriesFromBlock (jsTrimEnd
      (("## ".data ++ p.version.data ++ " (".data ++ p.date.data ++ ")".data) ++
        '\n' :: joinNlSep ([] :: ("### ".data ++ p.category.data) :: [] ::
          ("* ".data ++ p.description.data) ::
          (p.details.map (fun d => "  * ".data ++ d.data) ++ [[]])))) =
      [(p.category, [p.description])] := by
    rcases List.eq_nil_or_concat p.details with hdnil | ⟨L, b, hdC⟩
    · have hsplit : ("## ".data ++ p.version.data ++ " (".data ++ p.date.data ++ ")".data) ::
          [] :: ("### ".data ++ p.category.data) :: ([] : List Char) ::
          ("* ".data ++ p.description.data) ::
          (p.details.map (fun d => "  * ".data ++ d.data) ++ [[]]) =
          (([("## ".data ++ p.version.data ++ " (".data ++ p.date.data ++ ")".data), [],
            ("### ".data ++ p.category.data), []] : List (List Char)) ++
            ["* ".data ++ p.description.data]) ++ [[]] := by
        rw [hdnil]
        simp
      rw [show (("## ".data ++ p.version.data ++ " (".data ++ p.date.data ++ ")".data) ++
          '\n' :: joinNlSep ([] :: ("### ".data ++ p.category.data) :: [] ::
            ("* ".data ++ p.description.data) ::
            (p.details.map (fun d => "  * ".data ++ d.data) ++ [[]]))) =
          joinNlSep (("## ".data ++ p.version.data ++ " (".data ++ p.date.data ++ ")".data) ::
            [] :: ("### ".data ++ p.category.data) :: [] ::
            ("* ".data ++ p.description.data) ::
            (p.details.map (fun d => "  * ".data ++ d.data) ++ [[]])) from rfl,
        hsplit, trimEnd_formatted _ "* ".data p.description hdesc]
      unfold parseCategoriesFromBlock
      rw [chSplit_joinNlSep _ (by
          intro l hl
          simp only [List.mem_append, List.mem_cons, List.not_mem_nil, or_false,
            List.mem_singleton] at hl
          rcases hl with (rfl | rfl | rfl | rfl) | rfl
          · exact hh
          · exact List.not_mem_nil _
          · exact hb _ (by simp)
          · exact List.not_mem_nil _
          · exact hb _ (by simp)) (by simp),
        show (([("## ".data ++ p.version.data ++ " (".data ++ p.date.data ++ ")".data), [],
            ("### ".data ++ p.category.data), []] : List (List Char)) ++
            ["* ".data ++ p.description.data]) =
          ("## ".data ++ p.version.data ++ " (".data ++ p.date.data ++ ")".data) :: [] ::
            ("### ".data ++ p.category.data) ::
            (([[]] : List (List Char)) ++ ('*' :: ' ' :: p.description.data) :: []) from by
          simp [show ("* " : String).data = ['*', ' '] from rfl],
        catLoop_nofiles ("## ".data ++ p.version.data ++ " (".data ++ p.date.data ++ ")".data)
          [[]] [] '*' p.category p.description
          (catLineRest?_hash2 ' ' _ (by decide))
          (itemLineRest?_none_head '#' _ (by decide) (by decide))
          (by
            intro l hl
            rw [List.mem_singleton] at hl
            subst hl
            exact ⟨catLineRest?_nil, itemLineRest?_nil⟩)
          (fun l hl => absurd hl (List.not_mem_nil _))
          (Or.inr rfl) hcat hdesc]
      rfl
    · have hbmem : b ∈ p.details := by
        rw [hdC]
        simp
      have hLsub : ∀ x ∈ L, x ∈ p.details := by
        intro x hx
        rw [hdC, List.concat_eq_append]
        exact List.mem_append_left _ hx
      have hsplit : ("## ".data ++ p.version.data ++ " (".data ++ p.date.data ++ ")".data) ::
          [] :: ("### ".data ++ p.category.data) :: ([] : List Char) ::
          ("* ".data ++ p.description.data) ::
          (p.details.map (fun d => "  * ".data ++ d.data) ++ [[]]) =
          (([("## ".data ++ p.version.data ++ " (".data ++ p.date.data ++ ")".data), [],
            ("### ".data ++ p.category.data), [], ("* ".data ++ p.description.data)] :
              List (List Char)) ++
            L.map (fun d => "  * ".data ++ d.data) ++ ["  * ".data ++ b.data]) ++ [[]] := by
        rw [hdC]
        simp
      rw [show (("## ".data ++ p.version.data ++ " (".data ++ p.date.data ++ ")".data) ++
          '\n' :: joinNlSep ([] :: ("### ".data ++ p.category.data) :: [] ::
            ("* ".data ++ p.description.data) ::
            (p.details.map (fun d => "  * ".data ++ d.data) ++ [[]]))) =
          joinNlSep (("## ".data ++ p.version.data ++ " (".data ++ p.date.data ++ ")".data) ::
            [] :: ("### ".data ++ p.category.data) :: [] ::
            ("* ".data ++ p.description.data) ::
            (p.details.map (fun d => "  * ".data ++ d.data) ++ [[]])) from rfl,
        hsplit, trimEnd_formatted _ "  * ".data b (hdet b hbmem)]
      unfold parseCategoriesFromBlock
      rw [chSplit_joinNlSep _ (by
          intro l hl
          simp only [List.mem_append, List.mem_cons, List.not_mem_nil, or_false,
            List.mem_singleton] at hl
          rcases hl with ((rfl | rfl | rfl | rfl | rfl) | hl) | rfl
          · exact hh
          · exact List.not_mem_nil _
          · exact hb _ (by simp)
          · exact List.not_mem_nil _
          · exact hb _ (by simp)
          · obtain ⟨x, hx, rfl⟩ := List.mem_map.mp hl
            exact not_mem_append (by decide) (wfField_no_nl _ (hdet x (hLsub x hx)))
          · exact not_mem_append (by decide) (wfField_no_nl _ (hdet b hbmem))) (by simp),
        show ((([("## ".data ++ p.version.data ++ " (".data ++ p.date.data ++ ")".data), [],
            ("### ".data ++ p.category.data), [], ("* ".data ++ p.description.data)] :
              List (List Char)) ++
            L.map (fun d => "  * ".data ++ d.data) ++ ["  * ".data ++ b.data])) =
          ("## ".data ++ p.version.data ++ " (".data ++ p.date.data ++ ")".data) :: [] ::
            ("### ".data ++ p.category.data) ::
            (([[]] : List (List Char)) ++ ('*' :: ' ' :: p.description.data) ::
              (L.map (fun d => "  * ".data ++ d.data) ++ ["  * ".data ++ b.data])) from by
          simp [show ("* " : String).data = ['*', ' '] from rfl],
        catLoop_nofiles ("## ".data ++ p.version.data ++ " (".data ++ p.date.data ++ ")".data)
          [[]] (L.map (fun d => "  * ".data ++ d.data) ++ ["  * ".data ++ b.data]) '*'
          p.category p.description
          (catLineRest?_hash2 ' ' _ (by decide))
          (itemLineRest?_none_head '#' _ (by decide) (by decide))
          (by
            intro l hl
            rw [List.mem_singleton] at hl
            subst hl
            exact ⟨catLineRest?_nil, itemLineRest?_nil⟩)
          (by
            intro l hl
            rcases List.mem_append.mp hl with hl | hl
            · obtain ⟨x, hx, rfl⟩ := List.mem_map.mp hl
              exact ⟨catLineRest?_none_head ' ' _ (by decide),
                itemLineRest?_none_head ' ' _ (by decide) (by decide)⟩
            · rw [List.mem_singleton] at hl
              subst hl
              exact ⟨catLineRest?_none_head ' ' _ (by decide),
                itemLineRest?_none_head ' ' _ (by decide) (by decide)⟩)
          (Or.inr rfl) hcat hdesc]
      rfl
  simp only [List.map_cons, List.map_nil, mkEntry]
  rw [hcats, ← hv, ← hdt]

/-- Round trip of a no-files entry through the DWSM formatter. -/
theorem roundtrip_dwsm_nofiles (p : FormatEntryParams)
    (v1 v2 v3 dy dm dd : List Char)
    (hv : p.version.data = v1 ++ '.' :: v2 ++ '.' :: v3)
    (h1 : digitRun v1) (h2 : digitRun v2) (h3 : digitRun v3)
    (hdt : p.date.data = dy ++ '-' :: dm ++ '-' :: dd)
    (h4 : digitRunN 4 dy) (hm : digitRunN 2 dm) (hd : digitRunN 2 dd)
    (hcat : wfField p.category) (hdesc : wfField p.description)
    (hdet : ∀ x ∈ p.details, wfField x)
    (hfe : p.files = []) :
    (parseEntries (formatEntry Dialect.dwsm p)).map
      (fun e => (e.version, e.date, e.categories)) =
      [(p.version, p.date, [(p.category, [p.description])])] := by
  have hlines : dwsmLines p =
      ("v".data ++ p.version.data ++ " (".data ++ p.date.data ++ ")".data) :: [] ::
      ("### ".data ++ p.category.data) :: ("- ".data ++ p.description.data) ::
      (p.details.map (fun d => "  - ".data ++ d.data) ++ [[]]) := by
    unfold dwsmLines
    rw [hfe]
    simp
  have hstart : parseEntries (formatEntry Dialect.dwsm p) =
      parseEntriesL (joinNlSep (dwsmLines p)) := rfl
  rw [hstart, hlines,
    show joinNlSep (("v".data ++ p.version.data ++ " (".data ++ p.date.data ++ ")".data) ::
      [] :: ("### ".data ++ p.category.data) :: ("- ".data ++ p.description.data) ::
      (p.details.map (fun d => "  - ".data ++ d.data) ++ [[]])) =
      ("v".data ++ p.version.data ++ " (".data ++ p.date.data ++ ")".data) ++ '\n' ::
        joinNlSep ([] :: ("### ".data ++ p.category.data) ::
          ("- ".data ++ p.description.data) ::
          (p.details.map (fun d => "  - ".data ++ d.data) ++ [[]])) from rfl]
  have hh : '\n' ∉ "v".data ++ p.version.data ++ " (".data ++ p.date.data ++ ")".data := by
    rw [hv, hdt]
    refine not_mem_append (not_mem_append (not_mem_append (not_mem_append ?_
      (no_nl_version v1 v2 v3 h1 h2 h3)) ?_) (no_nl_date dy dm dd h4 hm hd)) ?_
    · decide
    · decide
    · decide
  have hb : ∀ l ∈ ([] : List Char) :: ("### ".data ++ p.category.data) ::
      ("- ".data ++ p.description.data) ::
      (p.details.map (fun d => "  - ".data ++ d.data) ++ [[]]), '\n' ∉ l := by
    intro l hl
    rcases List.mem_cons.mp hl with rfl | hl
    · exact List.not_mem_nil _
    rcases List.mem_cons.mp hl with rfl | hl
    · exact not_mem_append (by decide) (wfField_no_nl _ hcat)
    rcases List.mem_cons.mp hl with rfl | hl
    · exact not_mem_append (by decide) (wfField_no_nl _ hdesc)
    rcases List.mem_append.mp hl with hl | hl
    · obtain ⟨x, hx, rfl⟩ := List.mem_map.mp hl
      exact not_mem_append (by decide) (wfField_no_nl _ (hdet x hx))
    · rw [List.mem_singleton] at hl
      subst hl
      exact List.not_mem_nil _
  have hfail : ∀ l ∈ ([] : List Char) :: ("### ".data ++ p.category.data) ::
      ("- ".data ++ p.description.data) ::
      (p.details.map (fun d => "  - ".data ++ d.data) ++ [[]]),
      (∀ rr, tryHeading (l ++ '\n' :: rr) = none) ∧ tryHeading l = none := by
    intro l hl
    apply tryHeading_inert_line
    rcases List.mem_cons.mp hl with rfl | hl
    · exact Or.inl rfl
    rcases List.mem_cons.mp hl with rfl | hl
    · exact Or.inr (Or.inl ⟨' ' :: p.category.data, rfl⟩)
    rcases List.mem_cons.mp hl with rfl | hl
    · exact Or.inr (Or.inr ⟨'-', ' ' :: p.description.data, rfl, by decide, by decide⟩)
    rcases List.mem_append.mp hl with hl | hl
    · obtain ⟨x, hx, rfl⟩ := List.mem_map.mp hl
      exact Or.inr (Or.inr ⟨' ', ' ' :: '-' :: ' ' :: x.data, rfl, by decide, by decide⟩)
    · rw [List.mem_singleton] at hl
      subst hl
      exact Or.inl rfl
  have htry : tryHeading (("v".data ++ p.version.data ++ " (".data ++ p.date.data ++
      ")".data) ++ '\n' :: joinNlSep ([] :: ("### ".data ++ p.category.data) ::
        ("- ".data ++ p.description.data) ::
        (p.details.map (fun d => "  - ".data ++ d.data) ++ [[]]))) =
      some (v1 ++ '.' :: v2 ++ '.' :: v3, dy ++ '-' :: dm ++ '-' :: dd,
        '\n' :: joinNlSep ([] :: ("### ".data ++ p.category.data) ::
          ("- ".data ++ p.description.data) ::
          (p.details.map (fun d => "  - ".data ++ d.data) ++ [[]]))) := by
    rw [show ("v".data ++ p.version.data ++ " (".data ++ p.date.data ++ ")".data) ++
        '\n' :: joinNlSep ([] :: ("### ".data ++ p.category.data) ::
          ("- ".data ++ p.description.data) ::
          (p.details.map (fun d => "  - ".data ++ d.data) ++ [[]])) =
        'v' :: (v1 ++ '.' :: (v2 ++ '.' :: (v3 ++ ' ' :: '(' ::
          (dy ++ '-' :: (dm ++ '-' :: (dd ++ ')' :: '\n' ::
            joinNlSep ([] :: ("### ".data ++ p.category.data) ::
              ("- ".data ++ p.description.data) ::
              (p.details.map (fun d => "  - ".data ++ d.data) ++ [[]])))))))) from by
      rw [hv, hdt]
      simp only [show ("v" : String).data = ['v'] from rfl,
        show (" (" : String).data = [' ', '('] from rfl,
        show (")" : String).data = [')'] from rfl,
        List.cons_append, List.nil_append, List.append_assoc]]
    exact tryHeading_dwsm v1 v2 v3 dy dm dd _ h1 h2 h3 h4 hm hd
  rw [parseEntriesL_single _ _ _ _ _ hh hb (by simp) htry hfail]
  have hcats : parseCategoriesFromBlock (jsTrimEnd
      (("v".data ++ p.version.data ++ " (".data ++ p.date.data ++ ")".data) ++
        '\n' :: joinNlSep ([] :: ("### ".data ++ p.category.data) ::
          ("- ".data ++ p.description.data) ::
          (p.details.map (fun d => "  - ".data ++ d.data) ++ [[]])))) =
      [(p.category, [p.description])] := by
    rcases List.eq_nil_or_concat p.details with hdnil | ⟨L, b, hdC⟩
    · have hsplit : ("v".data ++ p.version.data ++ " (".data ++ p.date.data ++ ")".data) ::
          [] :: ("### ".data ++ p.category.data) :: ("- ".data ++ p.description.data) ::
          (p.details.map (fun d => "  - ".data ++ d.data) ++ [[]]) =
          (([("v".data ++ p.version.data ++ " (".data ++ p.date.data ++ ")".data), [],
            ("### ".data ++ p.category.data)] : List (List Char)) ++
            ["- ".data ++ p.description.data]) ++ [[]] := by
        rw [hdnil]
        simp
      rw [show (("v".data ++ p.version.data ++ " (".data ++ p.date.data ++ ")".data) ++
          '\n' :: joinNlSep ([] :: ("### ".data ++ p.category.data) ::
            ("- ".data ++ p.description.data) ::
            (p.details.map (fun d => "  - ".data ++ d.data) ++ [[]]))) =
          joinNlSep (("v".data ++ p.version.data ++ " (".data ++ p.date.data ++ ")".data) ::
            [] :: ("### ".data ++ p.category.data) :: ("- ".data ++ p.description.data) ::
            (p.details.map (fun d => "  - ".data ++ d.data) ++ [[]])) from rfl,
        hsplit, trimEnd_formatted _ "- ".data p.description hdesc]
      unfold parseCategoriesFromBlock
      rw [chSplit_joinNlSep _ (by
          intro l hl
          simp only [List.mem_append, List.mem_cons, List.not_mem_nil, or_false,
            List.mem_singleton] at hl
          rcases hl with (rfl | rfl | rfl) | rfl
          · exact hh
          · exact List.not_mem_nil _
          · exact hb _ (by simp)
          · exact hb _ (by simp)) (by simp),
        show (([("v".data ++ p.version.data ++ " (".data ++ p.date.data ++ ")".data), [],
            ("### ".data ++ p.category.data)] : List (List Char)) ++
            ["- ".data ++ p.description.data]) =
          ("v".data ++ p.version.data ++ " (".data ++ p.date.data ++ ")".data) :: [] ::
            ("### ".data ++ p.category.data) ::
            (([] : List (List Char)) ++ ('-' :: ' ' :: p.description.data) :: []) from by
          simp [show ("- " : String).data = ['-', ' '] from rfl],
        catLoop_nofiles ("v".data ++ p.version.data ++ " (".data ++ p.date.data ++ ")".data)
          [] [] '-' p.category p.description
          (catLineRest?_none_head 'v' _ (by decide))
          (itemLineRest?_none_head 'v' _ (by decide) (by decide))
          (fun l hl => absurd hl (List.not_mem_nil _))
          (fun l hl => absurd hl (List.not_mem_nil _))
          (Or.inl rfl) hcat hdesc]
      rfl
    · have hbmem : b ∈ p.details := by
        rw [hdC]
        simp
      have hLsub : ∀ x ∈ L, x ∈ p.details := by
        intro x hx
        rw [hdC, List.concat_eq_append]
        exact List.mem_append_left _ hx
      have hsplit : ("v".data ++ p.version.data ++ " (".data ++ p.date.data ++ ")".data) ::
          [] :: ("### ".data ++ p.category.data) :: ("- ".data ++ p.description.data) ::
          (p.details.map (fun d => "  - ".data ++ d.data) ++ [[]]) =
          (([("v".data ++ p.version.data ++ " (".data ++ p.date.data ++ ")".data), [],
            ("### ".data ++ p.category.data), ("- ".data ++ p.description.data)] :
              List (List Char)) ++
            L.map (fun d => "  - ".data ++ d.data) ++ ["  - ".data ++ b.data]) ++ [[]] := by
        rw [hdC]
        simp
      rw [show (("v".data ++ p.version.data ++ " (".data ++ p.date.data ++ ")".data) ++
          '\n' :: joinNlSep ([] :: ("### ".data ++ p.category.data) ::
            ("- ".data ++ p.description.data) ::
            (p.details.map (fun d => "  - ".data ++ d.data) ++ [[]]))) =
          joinNlSep (("v".data ++ p.version.data ++ " (".data ++ p.date.data ++ ")".data) ::
            [] :: ("### ".data ++ p.category.data) :: ("- ".data ++ p.description.data) ::
            (p.details.map (fun d => "  - ".data ++ d.data) ++ [[]])) from rfl,
        hsplit, trimEnd_formatted _ "  - ".data b (hdet b hbmem)]
      unfold parseCategoriesFromBlock
      rw [chSplit_joinNlSep _ (by
          intro l hl
          simp only [List.mem_append, List.mem_cons, List.not_mem_nil, or_false,
            List.mem_singleton] at hl
          rcases hl with ((rfl | rfl | rfl | rfl) | hl) | rfl
          · exact hh
          · exact List.not_mem_nil _
          · exact hb _ (by simp)
          · exact hb _ (by simp)
          · obtain ⟨x, hx, rfl⟩ := List.mem_map.mp hl
            exact not_mem_append (by decide) (wfField_no_nl _ (hdet x (hLsub x hx)))
          · exact not_mem_append (by decide) (wfField_no_nl _ (hdet b hbmem))) (by simp),
        show ((([("v".data ++ p.version.data ++ " (".data ++ p.date.data ++ ")".data), [],
            ("### ".data ++ p.category.data), ("- ".data ++ p.description.data)] :
              List (List Char)) ++
            L.map (fun d => "  - ".data ++ d.data) ++ ["  - ".data ++ b.data])) =
          ("v".data ++ p.version.data ++ " (".data ++ p.date.data ++ ")".data) :: [] ::
            ("### ".data ++ p.category.data) ::
            (([] : List (List Char)) ++ ('-' :: ' ' :: p.description.data) ::
              (L.map (fun d => "  - ".data ++ d.data) ++ ["  - ".data ++ b.data])) from by
          simp [show ("- " : String).data = ['-', ' '] from rfl],
        catLoop_nofiles ("v".data ++ p.version.data ++ " (".data ++ p.date.data ++ ")".data)
          [] (L.map (fun d => "  - ".data ++ d.data) ++ ["  - ".data ++ b.data]) '-'
          p.category p.description
          (catLineRest?_none_head 'v' _ (by decide))
          (itemLineRest?_none_head 'v' _ (by decide) (by decide))
          (fun l hl => absurd hl (List.not_mem_nil _))
          (by
            intro l hl
            rcases List.mem_append.mp hl with hl | hl
            · obtain ⟨x, hx, rfl⟩ := List.mem_map.mp hl
              exact ⟨catLineRest?_none_head ' ' _ (by decide),
                itemLineRest?_none_head ' ' _ (by decide) (by decide)⟩
            · rw [List.mem_singleton] at hl
              subst hl
              exact ⟨catLineRest?_none_head ' ' _ (by decide),
                itemLineRest?_none_head ' ' _ (by decide) (by decide)⟩)
          (Or.inl rfl) hcat hdesc]
      rfl
  simp only [List.map_cons, List.map_nil, mkEntry]
  rw [hcats, ← hv, ← hdt]

theorem map_mk_data (xs : List String) : (xs.map String.data).map String.mk = xs := by
  induction xs with
  | nil => rfl
  | cons x tl ih =>
    rw [List.map_cons, List.map_cons, ih]

/-- Round trip of an entry with files through the Keep a Changelog
formatter: the synthetic `Files` category is recovered verbatim. -/
theorem roundtrip_kac_files (p : FormatEntryParams)
    (v1 v2 v3 dy dm dd : List Char)
    (hv : p.version.data = v1 ++ '.' :: v2 ++ '.' :: v3)
    (h1 : digitRun v1) (h2 : digitRun v2) (h3 : digitRun v3)
    (hdt : p.date.data = dy ++ '-' :: dm ++ '-' :: dd)
    (h4 : digitRunN 4 dy) (hm : digitRunN 2 dm) (hd : digitRunN 2 dd)
    (hcat : wfField p.category) (hdesc : wfField p.description)
    (hdet : ∀ x ∈ p.details, wfField x)
    (hfiles : ∀ x ∈ p.files, wfField x)
    (hfne : p.files ≠ [])
    (hne : p.category ≠ "Files") :
    (parseEntries (formatEntry Dialect.keepAChangelog p)).map
      (fun e => (e.version, e.date, e.categories)) =
      [(p.version, p.date, [(p.category, [p.description]), ("Files", p.files)])] := by
  have hnedata : p.category.data ≠ ("Files" : String).data := by
    intro hq
    exact hne (by
      cases hcategory : p.category
      rw [hcategory] at hq
      rw [show ("Files" : String) = String.mk ("Files" : String).data from rfl, ← hq])
  have hlines : kacLines p =
      ("## [".data ++ p.version.data ++ "] - ".data ++ p.date.data) :: [] ::
      ("### ".data ++ p.category.data) :: ("- ".data ++ p.description.data) ::
      ((p.details.map (fun d => "  - ".data ++ d.data) ++
        ([] :: "### Files".data :: p.files.map (fun f => "- ".data ++ f.data))) ++ [[]]) := by
    unfold kacLines
    rw [if_neg hfne]
  have hstart : parseEntries (formatEntry Dialect.keepAChangelog p) =
      parseEntriesL (joinNlSep (kacLines p)) := rfl
  rw [hstart, hlines,
    show joinNlSep (("## [".data ++ p.version.data ++ "] - ".data ++ p.date.data) :: [] ::
      ("### ".data ++ p.category.data) :: ("- ".data ++ p.description.data) ::
      ((p.details.map (fun d => "  - ".data ++ d.data) ++
        ([] :: "### Files".data :: p.files.map (fun f => "- ".data ++ f.data))) ++ [[]])) =
      ("## [".data ++ p.version.data ++ "] - ".data ++ p.date.data) ++ '\n' ::
        joinNlSep ([] :: ("### ".data ++ p.category.data) ::
          ("- ".data ++ p.description.data) ::
          ((p.details.map (fun d => "  - ".data ++ d.data) ++
            ([] :: "### Files".data :: p.files.map (fun f => "- ".data ++ f.data))) ++ [[]]))
      from rfl]
  have hh : '\n' ∉ "## [".data ++ p.version.data ++ "] - ".data ++ p.date.data := by
    rw [hv, hdt]
    refine not_mem_append (not_mem_append (not_mem_append ?_
      (no_nl_version v1 v2 v3 h1 h2 h3)) ?_) (no_nl_date dy dm dd h4 hm hd)
    · decide
    · decide
  have hb : ∀ l ∈ ([] : List Char) :: ("### ".data ++ p.category.data) ::
      ("- ".data ++ p.description.data) ::
      ((p.details.map (fun d => "  - ".data ++ d.data) ++
        ([] :: "### Files".data :: p.files.map (fun f => "- ".data ++ f.data))) ++ [[]]),
      '\n' ∉ l := by
    intro l hl
    rcases List.mem_cons.mp hl with rfl | hl
    · exact List.not_mem_nil _
    rcases List.mem_cons.mp hl with rfl | hl
    · exact not_mem_append (by decide) (wfField_no_nl _ hcat)
    rcases List.mem_cons.mp hl with rfl | hl
    · exact not_mem_append (by decide) (wfField_no_nl _ hdesc)
    rcases List.mem_append.mp hl with hl | hl
    · rcases List.mem_append.mp hl with hl | hl
      · obtain ⟨x, hx, rfl⟩ := List.mem_map.mp hl
        exact not_mem_append (by decide) (wfField_no_nl _ (hdet x hx))
      · rcases List.mem_cons.mp hl with rfl | hl
        · exact List.not_mem_nil _
        rcases List.mem_cons.mp hl with rfl | hl
        · decide
        · obtain ⟨x, hx, rfl⟩ := List.mem_map.mp hl
          exact not_mem_append (by decide) (wfField_no_nl _ (hfiles x hx))
    · rw [List.mem_singleton] at hl
      subst hl
      exact List.not_mem_nil _
  have hfail : ∀ l ∈ ([] : List Char) :: ("### ".data ++ p.category.data) ::
      ("- ".data ++ p.description.data) ::
      ((p.details.map (fun d => "  - ".data ++ d.data) ++
        ([] :: "### Files".data :: p.files.map (fun f => "- ".data ++ f.data))) ++ [[]]),
      (∀ rr, tryHeading (l ++ '\n' :: rr) = none) ∧ tryHeading l = none := by
    intro l hl
    apply tryHeading_inert_line
    rcases List.mem_cons.mp hl with rfl | hl
    · exact Or.inl rfl
    rcases List.mem_cons.mp hl with rfl | hl
    · exact Or.inr (Or.inl ⟨' ' :: p.category.data, rfl⟩)
    rcases List.mem_cons.mp hl with rfl | hl
    · exact Or.inr (Or.inr ⟨'-', ' ' :: p.description.data, rfl, by decide, by decide⟩)
    rcases List.mem_append.mp hl with hl | hl
    · rcases List.mem_append.mp hl with hl | hl
      · obtain ⟨x, hx, rfl⟩ := List.mem_map.mp hl
        exact Or.inr (Or.inr ⟨' ', ' ' :: '-' :: ' ' :: x.data, rfl, by decide, by decide⟩)
      · rcases List.mem_cons.mp hl with rfl | hl
        · exact Or.inl rfl
        rcases List.mem_cons.mp hl with rfl | hl
        · exact Or.inr (Or.inl ⟨' ' :: ("Files" : String).data, rfl⟩)
        · obtain ⟨x, hx, rfl⟩ := List.mem_map.mp hl
          exact Or.inr (Or.inr ⟨'-', ' ' :: x.data, rfl, by decide, by decide⟩)
    · rw [List.mem_singleton] at hl
      subst hl
      exact Or.inl rfl
  have htry : tryHeading (("## [".data ++ p.version.data ++ "] - ".data ++ p.date.data) ++
      '\n' :: joinNlSep ([] :: ("### ".data ++ p.category.data) ::
        ("- ".data ++ p.description.data) ::
        ((p.details.map (fun d => "  - ".data ++ d.data) ++
          ([] :: "### Files".data :: p.files.map (fun f => "- ".data ++ f.data))) ++ [[]]))) =
      some (v1 ++ '.' :: v2 ++ '.' :: v3, dy ++ '-' :: dm ++ '-' :: dd,
        '\n' :: joinNlSep ([] :: ("### ".data ++ p.category.data) ::
          ("- ".data ++ p.description.data) ::
          ((p.details.map (fun d => "  - ".data ++ d.data) ++
            ([] :: "### Files".data :: p.files.map (fun f => "- ".data ++ f.data))) ++ [[]]))) := by
    rw [show ("## [".data ++ p.version.data ++ "] - ".data ++ p.date.data) ++
        '\n' :: joinNlSep ([] :: ("### ".data ++ p.category.data) ::
          ("- ".data ++ p.description.data) ::
          ((p.details.map (fun d => "  - ".data ++ d.data) ++
            ([] :: "### Files".data :: p.files.map (fun f => "- ".data ++ f.data))) ++ [[]])) =
        '#' :: '#' :: ' ' :: '[' :: (v1 ++ '.' :: (v2 ++ '.' :: (v3 ++ ']' :: ' ' :: '-' :: ' ' ::
          (dy ++ '-' :: (dm ++ '-' :: (dd ++ '\n' ::
            joinNlSep ([] :: ("### ".data ++ p.category.data) ::
              ("- ".data ++ p.description.data) ::
              ((p.details.map (fun d => "  - ".data ++ d.data) ++
                ([] :: "### Files".data :: p.files.map (fun f => "- ".data ++ f.data))) ++
                [[]])))))))) from by
      rw [hv, hdt]
      simp only [show ("## [" : String).data = ['#', '#', ' ', '['] from rfl,
        show ("] - " : String).data = [']', ' ', '-', ' '] from rfl,
        List.cons_append, List.nil_append, List.append_assoc]]
    exact tryHeading_kac v1 v2 v3 dy dm dd _ h1 h2 h3 h4 hm hd
  rw [parseEntriesL_single _ _ _ _ _ hh hb (by simp) htry hfail]
  have hcats : parseCategoriesFromBlock (jsTrimEnd
      (("## [".data ++ p.version.data ++ "] - ".data ++ p.date.data) ++
        '\n' :: joinNlSep ([] :: ("### ".data ++ p.category.data) ::
          ("- ".data ++ p.description.data) ::
          ((p.details.map (fun d => "  - ".data ++ d.data) ++
            ([] :: "### Files".data :: p.files.map (fun f => "- ".data ++ f.data))) ++ [[]])))) =
      [(p.category, [p.description]), ("Files", p.files)] := by
    rcases List.eq_nil_or_concat p.files with hfnil | ⟨F, b, hfC⟩
    · exact absurd hfnil hfne
    have hbmem : b ∈ p.files := by
      rw [hfC]
      simp
    have hFsub : ∀ x ∈ F, x ∈ p.files := by
      intro x hx
      rw [hfC, List.concat_eq_append]
      exact List.mem_append_left _ hx
    have hsplit : ("## [".data ++ p.version.data ++ "] - ".data ++ p.date.data) :: [] ::
        ("### ".data ++ p.category.data) :: ("- ".data ++ p.description.data) ::
        ((p.details.map (fun d => "  - ".data ++ d.data) ++
          ([] :: "### Files".data :: p.files.map (fun f => "- ".data ++ f.data))) ++ [[]]) =
        (([("## [".data ++ p.version.data ++ "] - ".data ++ p.date.data), [],
          ("### ".data ++ p.category.data), ("- ".data ++ p.description.data)] :
            List (List Char)) ++
          (p.details.map (fun d => "  - ".data ++ d.data) ++
            ([] :: "### Files".data :: F.map (fun f => "- ".data ++ f.data))) ++
          ["- ".data ++ b.data]) ++ [[]] := by
      rw [hfC]
      simp
    rw [show (("## [".data ++ p.version.data ++ "] - ".data ++ p.date.data) ++
        '\n' :: joinNlSep ([] :: ("### ".data ++ p.category.data) ::
          ("- ".data ++ p.description.data) ::
          ((p.details.map (fun d => "  - ".data ++ d.data) ++
            ([] :: "### Files".data :: p.files.map (fun f => "- ".data ++ f.data))) ++ [[]]))) =
        joinNlSep (("## [".data ++ p.version.data ++ "] - ".data ++ p.date.data) :: [] ::
          ("### ".data ++ p.category.data) :: ("- ".data ++ p.description.data) ::
          ((p.details.map (fun d => "  - ".data ++ d.data) ++
            ([] :: "### Files".data :: p.files.map (fun f => "- ".data ++ f.data))) ++ [[]]))
        from rfl,
      hsplit, trimEnd_formatted _ "- ".data b (hfiles b hbmem)]
    unfold parseCategoriesFromBlock
    rw [chSplit_joinNlSep _ (by
        intro l hl
        simp only [List.mem_append, List.mem_cons, List.not_mem_nil, or_false,
          List.mem_singleton] at hl
        rcases hl with ((rfl | rfl | rfl | rfl) | (hl | (rfl | rfl | hl))) | rfl
        · exact hh
        · exact List.not_mem_nil _
        · exact hb _ (by simp)
        · exact hb _ (by simp)
        · obtain ⟨x, hx, rfl⟩ := List.mem_map.mp hl
          exact not_mem_append (by decide) (wfField_no_nl _ (hdet x hx))
        · exact List.not_mem_nil _
        · decide
        · obtain ⟨x, hx, rfl⟩ := List.mem_map.mp hl
          exact not_mem_append (by decide) (wfField_no_nl _ (hfiles x (hFsub x hx)))
        · exact not_mem_append (by decide) (wfField_no_nl _ (hfiles b hbmem))) (by simp),
      show ((([("## [".data ++ p.version.data ++ "] - ".data ++ p.date.data), [],
          ("### ".data ++ p.category.data), ("- ".data ++ p.description.data)] :
            List (List Char)) ++
          (p.details.map (fun d => "  - ".data ++ d.data) ++
            ([] :: "### Files".data :: F.map (fun f => "- ".data ++ f.data))) ++
          ["- ".data ++ b.data])) =
        ("## [".data ++ p.version.data ++ "] - ".data ++ p.date.data) :: [] ::
          ("### ".data ++ p.category.data) :: ('-' :: ' ' :: p.description.data) ::
          (p.details.map (fun d => "  - ".data ++ d.data) ++
            [] :: ("### Files" : String).data ::
              p.files.map (fun f => '-' :: ' ' :: f.data)) from by
        rw [hfC]
        simp [show ("- " : String).data = ['-', ' '] from rfl],
      show (("### Files" : String).data : List Char) =
        '#' :: '#' :: '#' :: ' ' :: ("Files" : String).data from rfl,
      catLoop_kac_files ("## [".data ++ p.version.data ++ "] - ".data ++ p.date.data)
        (p.details.map (fun d => "  - ".data ++ d.data)) p.category p.description p.files
        (catLineRest?_hash2 ' ' _ (by decide))
        (itemLineRest?_none_head '#' _ (by decide) (by decide))
        (by
          intro l hl
          obtain ⟨x, hx, rfl⟩ := List.mem_map.mp hl
          exact ⟨catLineRest?_none_head ' ' _ (by decide),
            itemLineRest?_none_head ' ' _ (by decide) (by decide)⟩)
        hcat hdesc hfiles hnedata]
    simp only [List.map_cons, List.map_nil, map_mk_data]
  simp only [List.map_cons, List.map_nil, mkEntry]
  rw [hcats, ← hv, ← hdt]

/-- C1 (corrected): round trip between formatting and parsing.  For every
dialect and every well-formed entry input (three digit-run version
components, a YYYY-MM-DD date, non-empty trimmed single-line category,
description, details and files, category distinct from the synthetic
Files key when files are present), parsing the formatted entry yields
exactly one entry with the input version and date.  The category map is
recovered exactly for all three dialects when the file list is empty,
and for the Keep a Changelog dialect also with files, where the entry
additionally carries the Files category with the file list verbatim.
The original claim quantified over all three dialects with files as
well; it fails for the conventional and DWSM formatters because their
file decorations survive into, or exclude the lines from, the parsed
items (see the counterexample theorem). -/
theorem roundtrip_formatEntry (dialect : Dialect) (p : FormatEntryParams)
    (v1 v2 v3 dy dm dd : List Char)
    (hv : p.version.data = v1 ++ '.' :: v2 ++ '.' :: v3)
    (h1 : digitRun v1) (h2 : digitRun v2) (h3 : digitRun v3)
    (hdt : p.date.data = dy ++ '-' :: dm ++ '-' :: dd)
    (h4 : digitRunN 4 dy) (hm : digitRunN 2 dm) (hd : digitRunN 2 dd)
    (hcat : wfField p.category) (hdesc : wfField p.description)
    (hdet : ∀ x ∈ p.details, wfField x)
    (hfiles : ∀ x ∈ p.files, wfField x)
    (hfe : p.files = [] ∨ (dialect = Dialect.keepAChangelog ∧ p.category ≠ "Files")) :
    (parseEntries (formatEntry dialect p)).map
      (fun e => (e.version, e.date, e.categories)) =
      [(p.version, p.date,
        (p.category, [p.description]) ::
          (if p.files = [] then [] else [("Files", p.files)]))] := by
  rcases hfe with hfe0 | ⟨hdial, hne⟩
  · rw [if_pos hfe0]
    cases dialect
    · exact roundtrip_kac_nofiles p v1 v2 v3 dy dm dd hv h1 h2 h3 hdt h4 hm hd
        hcat hdesc hdet hfe0
    · exact roundtrip_conv_nofiles p v1 v2 v3 dy dm dd hv h1 h2 h3 hdt h4 hm hd
        hcat hdesc hdet hfe0
    · exact roundtrip_dwsm_nofiles p v1 v2 v3 dy dm dd hv h1 h2 h3 hdt h4 hm hd
        hcat hdesc hdet hfe0
  · subst hdial
    by_cases hfe0 : p.files = []
    · rw [if_pos hfe0]
      exact roundtrip_kac_nofiles p v1 v2 v3 dy dm dd hv h1 h2 h3 hdt h4 hm hd
        hcat hdesc hdet hfe0
    · rw [if_neg hfe0]
      exact roundtrip_kac_files p v1 v2 v3 dy dm dd hv h1 h2 h3 hdt h4 hm hd
        hcat hdesc hdet hfiles hfe0 hne

/-- C1 counterexample: the conventional formatter renders files as bold
list items, so re-parsing the formatted entry stores the decorated text
under the Files category and the category map of the input is not
recovered; the round trip claimed for every dialect fails with files. -/
theorem roundtrip_conv_files_counterexample :
    (parseEntries (formatEntry Dialect.conventional
      (FormatEntryParams.mk "1.2.3" "2024-01-02" "Added" "desc" [] ["a.ts"]))).map
      (fun e => (e.version, e.date, e.categories)) =
      [("1.2.3", "2024-01-02", [("Added", ["desc"]), ("Files", ["**a.ts**"])])] ∧
    (parseEntries (formatEntry Dialect.conventional
      (FormatEntryParams.mk "1.2.3" "2024-01-02" "Added" "desc" [] ["a.ts"]))).map
      (fun e => (e.version, e.date, e.categories)) ≠
      [("1.2.3", "2024-01-02", [("Added", ["desc"]), ("Files", ["a.ts"])])] := by
  constructor
  · decide
  · decide

/-- Witness for the C1 round trip at a concrete entry with details and
files through the Keep a Changelog formatter. -/
theorem roundtrip_formatEntry_witness :
    (parseEntries (formatEntry Dialect.keepAChangelog
      (FormatEntryParams.mk "1.2.3" "2024-01-02" "Added" "new parser" ["covers dates"]
        ["a.ts"]))).map
      (fun e => (e.version, e.date, e.categories)) =
      [("1.2.3", "2024-01-02", [("Added", ["new parser"]), ("Files", ["a.ts"])])] :=
  roundtrip_formatEntry Dialect.keepAChangelog
    (FormatEntryParams.mk "1.2.3" "2024-01-02" "Added" "new parser" ["covers dates"] ["a.ts"])
    "1".data "2".data "3".data "2024".data "01".data "02".data
    (by decide) (by decide) (by decide) (by decide) (by decide) (by decide)
    (by decide) (by decide) (by decide) (by decide) (by decide) (by decide)
    (Or.inr ⟨rfl, by decide⟩)

end ChangelogMcp
